import Mathlib

/-!
# convertiseur: PNG to PDF / WebP converter

A shallow embedding of the batch conversion code of the repository
(`index.js`, `index-interactive.js`, `web-converter.js`) together with the
part of the Node.js runtime the code relies on (`path.posix`, the `glob`
matches of `*.png` in a directory tree, the effects of `fs`, `sharp`
and `pdf-lib` as outcome oracles, the lookup of `express.static` for the
mount `/downloads`).

Strings are lists of characters.  Effects are recorded as a trace of events,
failures of the outside world are chosen by an environment of oracles.
-/

namespace Convertiseur

/-- A JavaScript string, as the list of its characters. -/
abbrev Str := List Char

/-! ## Node.js `path.posix` -/

/-- The components of a path between the `/` separators (empty components
are kept: `"a//b"` has the components `a`, the empty one and `b`). -/
def splitSlash : Str → List Str
  | [] => [[]]
  | c :: cs =>
    if c = '/' then [] :: splitSlash cs
    else
      match splitSlash cs with
      | [] => [[c]]
      | s :: ss => (c :: s) :: ss

/-- The text `..`. -/
def dotdot : Str := ['.', '.']

/-- One step of `normalizeString` of `lib/path.js`: the components kept so far
are held most recent first.  Empty components and `.` are skipped, `..` removes
the most recent component unless there is none or it is itself `..`, in which
case `..` is kept only when `allowAboveRoot` holds. -/
def pushSeg (allowAboveRoot : Bool) (rstack : List Str) (seg : Str) : List Str :=
  if seg = [] ∨ seg = ['.'] then rstack
  else if seg = dotdot then
    match rstack with
    | [] => if allowAboveRoot then [seg] else []
    | last :: rest =>
      if last = dotdot then (if allowAboveRoot then seg :: rstack else rstack)
      else rest
  else seg :: rstack

/-- The components of `normalizeString(path, allowAboveRoot)`, in order. -/
def normSegs (allowAboveRoot : Bool) (segs : List Str) : List Str :=
  (segs.foldl (pushSeg allowAboveRoot) []).reverse

/-- Components joined by `/`. -/
def joinSlash : List Str → Str
  | [] => []
  | [s] => s
  | s :: ss => s ++ '/' :: joinSlash ss

/-- Whether a path starts with `/`: `path.isAbsolute`. -/
def isAbsolute (p : Str) : Bool := p.head? == some '/'

/-- Whether a path ends with `/`. -/
def hasTrailingSlash (p : Str) : Bool := p.getLast? == some '/'

/-- Node's `path.normalize`. -/
def normalize (p : Str) : Str :=
  if p = [] then ['.']
  else
    let abs := isAbsolute p
    let trailing := hasTrailingSlash p
    let body := joinSlash (normSegs (!abs) (splitSlash p))
    if body = [] then
      if abs then ['/'] else if trailing then ['.', '/'] else ['.']
    else
      let body := if trailing then body ++ ['/'] else body
      if abs then '/' :: body else body

/-- Node's `path.join`: the non-empty arguments joined by `/`, normalized. -/
def join (args : List Str) : Str :=
  match args.filter (fun a => a ≠ []) with
  | [] => ['.']
  | parts => normalize (joinSlash parts)

/-- The components of `path.resolve(p)` for a process whose working directory
is the absolute path `cwd`. -/
def resolveSegs (cwd p : Str) : List Str :=
  if isAbsolute p then normSegs false (splitSlash p)
  else normSegs false (splitSlash cwd ++ splitSlash p)

/-- Node's `path.resolve(p)` with one argument. -/
def resolve (cwd p : Str) : Str := '/' :: joinSlash (resolveSegs cwd p)

/-- The length of the longest common prefix of two lists of components. -/
def commonPrefixLen : List Str → List Str → Nat
  | a :: as, b :: bs => if a = b then commonPrefixLen as bs + 1 else 0
  | _, _ => 0

/-- Node's `path.relative(from, to)`: both are resolved, then one `..` stands
for each component of `from` after the common part, followed by what is left
of `to`. -/
def relative (cwd fromPath toPath : Str) : Str :=
  if fromPath = toPath then []
  else
    let a := resolveSegs cwd fromPath
    let b := resolveSegs cwd toPath
    if a = b then []
    else
      let k := commonPrefixLen a b
      joinSlash (List.replicate (a.length - k) dotdot ++ b.drop k)

/-- Node's `path.dirname`: trailing separators and the last component are
skipped from the right (the first character is never inspected); what is left
of the separator found is the result. -/
def dirname (p : Str) : Str :=
  match p with
  | [] => ['.']
  | c0 :: rest =>
    let r := (rest.reverse.dropWhile (fun c => c = '/')).dropWhile (fun c => c ≠ '/')
    match r with
    | [] => if c0 = '/' then ['/'] else ['.']
    | _ :: r' =>
      if c0 = '/' ∧ r'.length + 1 = 1 then ['/', '/'] else p.take (r'.length + 1)

/-- The last component of a path once trailing separators are dropped. -/
def lastComponent (p : Str) : Str :=
  ((p.reverse.dropWhile (fun c => c = '/')).takeWhile (fun c => c ≠ '/')).reverse

/-- Node's `path.basename(p)` without a suffix. -/
def basename (p : Str) : Str := lastComponent p

/-- Whether `a` and `b` agree on every position of the shorter one
(`a` and `b` are read from their ends when given reversed). -/
def agreeOnPrefix : Str → Str → Bool
  | a :: as, b :: bs => a == b && agreeOnPrefix as bs
  | _, _ => true

/-- Node's `path.basename(p, suffix)`.  The last component is compared with the
suffix from the right: when the whole suffix is found and something is left of
it, the suffix is removed; when the component is the suffix itself or differs
from it, the component is returned whole; when the component is shorter than
the suffix and agrees with its end, everything from the start of the
component to the end of the path is returned. -/
def basenameExt (p suffix : Str) : Str :=
  if suffix ≠ [] ∧ suffix.length ≤ p.length then
    if suffix = p then []
    else
      let comp := lastComponent p
      if comp = [] then p
      else if suffix.length ≤ comp.length then
        if suffix.length < comp.length ∧ suffix.isSuffixOf comp
        then comp.take (comp.length - suffix.length)
        else comp
      else if agreeOnPrefix comp.reverse suffix.reverse then
        comp ++ p.reverse.takeWhile (fun c => c = '/')
      else comp
  else basename p

/-- Node's `path.extname`: from the last `.` of the last component to its end,
empty when there is no `.`, when the `.` is the first character of the
component, or when the component is `..`. -/
def extname (p : Str) : Str :=
  let comp := lastComponent p
  let afterDot := (comp.reverse.takeWhile (fun c => c ≠ '.')).reverse
  if afterDot.length = comp.length then []
  else if afterDot.length + 1 = comp.length then []
  else if comp = dotdot then []
  else comp.drop (comp.length - afterDot.length - 1)

/-- JavaScript's `toLowerCase`, on the ASCII letters (the only characters whose
lower case is one of the letters of `.png`). -/
def toLowerCase (s : Str) : Str := s.map Char.toLower

/-! ## Directory trees and the names `*.png` matches in them -/

/-- An entry of a directory: a file, or a directory with its own entries. -/
inductive Entry where
  | file (name : Str)
  | dir (name : Str) (children : List Entry)

/-- The name of an entry. -/
def Entry.name : Entry → Str
  | .file n => n
  | .dir n _ => n

/-- Whether the name starts with a dot: such entries are skipped by `*` and
`**` (glob's `dot` option is off by default). -/
def isHidden (name : Str) : Bool := name.head? == some '.'

/-- Whether glob's `*.png` matches a name: it ends in `.png` and does not
start with a dot. -/
def matchStarDotPng (name : Str) : Bool :=
  !isHidden name && (".png".toList).isSuffixOf name

/-- The entries of a directory that `*.png` matches, each under the name `dir`
of the directory, in the order of the listing.  They are the members of the
answer of glob to a pattern whose directory part it reads as the plain name
`dir`; the order of the answer is not promised by glob, and a directory part
with `[`, `{`, `*` or `?` in it is read as a pattern and not as a name. -/
def globFlat (dir : Str) (entries : List Entry) : List Str :=
  (entries.filter (fun e => matchStarDotPng e.name)).map (fun e => dir ++ '/' :: e.name)

mutual
/-- The names `*.png` matches in the subtree of one entry of the directory
`dir`: the entry itself when it matches, and what is below it when it is a
directory whose name does not start with a dot. -/
def globDeepEntry (dir : Str) : Entry → List Str
  | .file name => if matchStarDotPng name then [dir ++ '/' :: name] else []
  | .dir name children =>
    (if matchStarDotPng name then [dir ++ '/' :: name] else []) ++
      (if isHidden name then [] else globDeep (dir ++ '/' :: name) children)
/-- The names `*.png` matches in the whole subtree of a directory, under the
name `dir` of the directory, entry by entry in the order of the listing (the
same reading as for `globFlat`). -/
def globDeep (dir : Str) : List Entry → List Str
  | [] => []
  | e :: es => globDeepEntry dir e ++ globDeep dir es
end

/-! ## The outside world -/

/-- The bytes of a file. -/
abbrev Bytes := List Nat

/-- One call of `page.drawImage(image, { x, y, width, height })`. -/
structure DrawOp where
  image : Nat
  x : Nat
  y : Nat
  width : Nat
  height : Nat
deriving DecidableEq, Repr

/-- A page of a pdf-lib document: its size in points and what was drawn. -/
structure PdfPage where
  width : Nat
  height : Nat
  draws : List DrawOp
deriving DecidableEq, Repr

/-- A pdf-lib document: its pages and its embedded images, in order. -/
structure PdfDoc where
  pages : List PdfPage
  images : List Bytes
deriving DecidableEq, Repr

/-- An observable action of the program. -/
inductive Event where
  /-- `fs.mkdir(dir, { recursive: true })` was called. -/
  | mkdir (dir : Str)
  /-- `glob(pattern)` was called. -/
  | glob (pattern : Str)
  /-- The conversion of `input` to `output` was started. -/
  | convert (input output type : Str)
  /-- `sharp(input).webp({ quality }).toFile(output)` wrote `output`. -/
  | webpToFile (input : Str) (quality : Nat) (output : Str)
  /-- `fs.writeFile(output, bytes)` wrote `output`. -/
  | writeFile (output : Str) (bytes : Bytes)
  /-- The per-file success line. -/
  | succeed (input output : Str)
  /-- The per-file error line. -/
  | convertError (input message : Str)
  /-- The line saying no PNG file was found. -/
  | noFiles (dir : Str)
  /-- The line giving the number of files found. -/
  | found (n : Nat)
  /-- The final summary: `successCount` of `total`. -/
  | summary (successCount total : Nat)
  /-- The error line of the handler around a whole directory. -/
  | directoryError (message : Str)
  /-- Another error line of `main`. -/
  | fatal (message : Str)
  /-- `fs.rm(dir, { recursive: true, force: true })` was called. -/
  | rm (dir : Str)
  /-- `process.exit(code)` was called. -/
  | exit (code : Nat)
deriving DecidableEq, Repr

/-- The outside world: every call that can fail returns its error message or
its result. -/
structure Env where
  /-- The working directory of the process, an absolute path. -/
  cwd : Str
  /-- The result of `os.tmpdir()`. -/
  tmpdir : Str
  /-- `fs.stat(p)`: `none` when it rejects, else whether `p` is a directory. -/
  stat : Str → Option Bool
  /-- `fs.mkdir(p, { recursive: true })`. -/
  mkdir : Str → Except Str Unit
  /-- `glob(pattern)`. -/
  glob : Str → Except Str (List Str)
  /-- `sharp(p).toBuffer()`. -/
  toBuffer : Str → Except Str Bytes
  /-- `sharp(p).metadata()`: the width and the height. -/
  metadata : Str → Except Str (Nat × Nat)
  /-- `sharp(input).webp({ quality }).toFile(output)`. -/
  webp : Str → Nat → Str → Except Str Unit
  /-- `pdfDoc.embedPng(image)`. -/
  embedPng : Bytes → Except Str Unit
  /-- `pdfDoc.save()`. -/
  save : PdfDoc → Except Str Bytes
  /-- `fs.writeFile(p, bytes)`. -/
  writeFile : Str → Bytes → Except Str Unit
  /-- `fs.rm(p, { recursive: true, force: true })`. -/
  rm : Str → Except Str Unit
  /-- The identifier `uuidv4()` returns for this request. -/
  uuid : Str

/-! ## pdf-lib -/

/-- `PDFDocument.create()`. -/
def PdfDoc.create : PdfDoc := { pages := [], images := [] }

/-- `pdfDoc.addPage([width, height])`: the page is added last; its index is
returned with the document. -/
def PdfDoc.addPage (doc : PdfDoc) (width height : Nat) : PdfDoc × Nat :=
  ({ doc with pages := doc.pages ++ [{ width := width, height := height, draws := [] }] },
    doc.pages.length)

/-- `pdfDoc.embedPng(image)` when it succeeds: the image is added last; its
index is returned with the document. -/
def PdfDoc.embed (doc : PdfDoc) (image : Bytes) : PdfDoc × Nat :=
  ({ doc with images := doc.images ++ [image] }, doc.images.length)

/-- `page.drawImage(image, options)` on the page of the given index. -/
def PdfDoc.drawImage (doc : PdfDoc) (page : Nat) (op : DrawOp) : PdfDoc :=
  { doc with pages := doc.pages.modify (fun pg => { pg with draws := pg.draws ++ [op] }) page }

/-! ## The conversions (`index.js`, the same in the two other programs) -/

/-- The text `.png`. -/
def dotPng : Str := ".png".toList

/-- The text `pdf`. -/
def pdf : Str := "pdf".toList

/-- The text `webp`. -/
def webp : Str := "webp".toList

/-- `convertPngToWebp`: an error message when it throws, else what it wrote. -/
def convertPngToWebp (env : Env) (inputPath outputPath : Str) : Except Str (List Event) :=
  match env.webp inputPath 90 outputPath with
  | .error e => .error e
  | .ok _ => .ok [.webpToFile inputPath 90 outputPath]

/-- The document `convertPngToPdf` builds from the image and its size. -/
def buildPdf (image : Bytes) (width height : Nat) : PdfDoc :=
  let pdfDoc := PdfDoc.create
  let (pdfDoc, page) := pdfDoc.addPage width height
  let (pdfDoc, pngImage) := pdfDoc.embed image
  pdfDoc.drawImage page { image := pngImage, x := 0, y := 0, width := width, height := height }

/-- `convertPngToPdf`: an error message when it throws, else what it wrote. -/
def convertPngToPdf (env : Env) (inputPath outputPath : Str) : Except Str (List Event) :=
  match env.toBuffer inputPath with
  | .error e => .error e
  | .ok image =>
    match env.metadata inputPath with
    | .error e => .error e
    | .ok (width, height) =>
      match env.embedPng image with
      | .error e => .error e
      | .ok _ =>
        match env.save (buildPdf image width height) with
        | .error e => .error e
        | .ok pdfBytes =>
          match env.writeFile outputPath pdfBytes with
          | .error e => .error e
          | .ok _ => .ok [.writeFile outputPath pdfBytes]

/-- The dispatch on the type shared by `convertFile` and the HTTP handlers:
`webp`, `pdf`, or nothing at all for another type. -/
def convertAs (env : Env) (inputPath outputPath type : Str) : Except Str (List Event) :=
  if type = webp then convertPngToWebp env inputPath outputPath
  else if type = pdf then convertPngToPdf env inputPath outputPath
  else .ok []

/-- `convertFile`: the events, and `true` unless the conversion threw. -/
def convertFile (env : Env) (inputPath outputPath type : Str) : List Event × Bool :=
  match convertAs env inputPath outputPath type with
  | .ok evs => (.convert inputPath outputPath type :: evs ++ [.succeed inputPath outputPath], true)
  | .error e => ([.convert inputPath outputPath type, .convertError inputPath e], false)

/-- The pattern given to glob for a directory (`index.js` line 74). -/
def globPattern (inputDir : Str) (recursive : Bool) : Str :=
  if recursive then inputDir ++ "/**/*.png".toList else inputDir ++ "/*.png".toList

/-- The directory a file's output goes to (`index.js` lines 86-87). -/
def outputSubdirOf (cwd inputDir outputDir file : Str) : Str :=
  let relativePath := relative cwd inputDir file
  dirname (join [outputDir, relativePath])

/-- The output path of a discovered file (`index.js` lines 86-90, the same
lines in `index-interactive.js` and in `POST /convert-folder`). -/
def outputFileOf (cwd inputDir outputDir type file : Str) : Str :=
  join [outputSubdirOf cwd inputDir outputDir file, basenameExt file dotPng ++ '.' :: type]

/-- The loop of `processDirectory` over the files left, from the count so far:
the events, and the final count unless a directory creation threw. -/
def processFiles (env : Env) (inputDir outputDir type : Str) :
    List Str → Nat → List Event × Except Str Nat
  | [], successCount => ([], .ok successCount)
  | file :: rest, successCount =>
    let outputSubdir := outputSubdirOf env.cwd inputDir outputDir file
    match env.mkdir outputSubdir with
    | .error e => ([.mkdir outputSubdir], .error e)
    | .ok _ =>
      let outputFile := outputFileOf env.cwd inputDir outputDir type file
      let r := convertFile env file outputFile type
      let next := processFiles env inputDir outputDir type rest
        (if r.2 then successCount + 1 else successCount)
      (.mkdir outputSubdir :: r.1 ++ next.1, next.2)

/-- `processDirectory` of `index-interactive.js`: the events and the number
it returns. -/
def Interactive.processDirectory (env : Env) (inputDir outputDir type : Str)
    (recursive : Bool) : List Event × Nat :=
  match env.mkdir outputDir with
  | .error e => ([.mkdir outputDir, .directoryError e], 0)
  | .ok _ =>
    let pattern := globPattern inputDir recursive
    match env.glob pattern with
    | .error e => ([.mkdir outputDir, .glob pattern, .directoryError e], 0)
    | .ok files =>
      if files.length = 0 then
        ([.mkdir outputDir, .glob pattern, .noFiles inputDir], 0)
      else
        let run := processFiles env inputDir outputDir type files 0
        match run.2 with
        | .error e =>
          (.mkdir outputDir :: .glob pattern :: .found files.length :: run.1
            ++ [.directoryError e], 0)
        | .ok successCount =>
          (.mkdir outputDir :: .glob pattern :: .found files.length :: run.1
            ++ [.summary successCount files.length], successCount)

/-- `processDirectory` of `index.js`: its events (it returns nothing, and no
error leaves it). -/
def processDirectory (env : Env) (inputDir outputDir type : Str) (recursive : Bool) :
    List Event :=
  match env.mkdir outputDir with
  | .error e => [.mkdir outputDir, .directoryError e]
  | .ok _ =>
    let pattern := globPattern inputDir recursive
    match env.glob pattern with
    | .error e => [.mkdir outputDir, .glob pattern, .directoryError e]
    | .ok files =>
      if files.length = 0 then
        [.mkdir outputDir, .glob pattern, .noFiles inputDir]
      else
        let run := processFiles env inputDir outputDir type files 0
        match run.2 with
        | .error e =>
          .mkdir outputDir :: .glob pattern :: .found files.length :: run.1
            ++ [.directoryError e]
        | .ok successCount =>
          .mkdir outputDir :: .glob pattern :: .found files.length :: run.1
            ++ [.summary successCount files.length]

/-- The options of the command line of `index.js`. -/
structure Options where
  input : Str
  output : Str
  type : Str
  recursive : Bool

/-- `main` of `index.js`: the events of the run; `process.exit(1)` ends it. -/
def main (env : Env) (options : Options) : List Event :=
  if options.type ≠ pdf ∧ options.type ≠ webp then
    [.fatal "Error: Type must be either \"pdf\" or \"webp\"".toList, .exit 1]
  else
    match env.stat options.input with
    | none =>
      [.fatal ("Error: Input path \"".toList ++ options.input ++ "\" does not exist".toList),
        .exit 1]
    | some isDirectory =>
      if isDirectory then
        processDirectory env options.input options.output options.type options.recursive
      else if toLowerCase (extname options.input) = dotPng then
        let outputDir := dirname options.output
        match env.mkdir outputDir with
        | .error e => [.mkdir outputDir, .fatal e, .exit 1]
        | .ok _ => .mkdir outputDir :: (convertFile env options.input options.output options.type).1
      else
        [.fatal "Error: Input file must be a PNG image".toList, .exit 1]

/-- The exit code of a run: the code given to `process.exit`, and 0 when the
program ends without calling it. -/
def exitCode : List Event → Nat
  | [] => 0
  | .exit code :: _ => code
  | _ :: rest => exitCode rest

/-! ## The HTTP service (`web-converter.js`) -/

/-- A value of a request body. -/
inductive JsVal where
  | undefined
  | null
  | bool (b : Bool)
  | num (n : Int)
  | str (s : Str)
  /-- An object or an array. -/
  | object
deriving DecidableEq, Repr

/-- JavaScript's truthiness (what `!v` negates). -/
def JsVal.truthy : JsVal → Bool
  | .undefined => false
  | .null => false
  | .bool b => b
  | .num n => n != 0
  | .str s => s != []
  | .object => true

/-- A file as multer hands it to the handler. -/
structure UploadedFile where
  originalname : Str
  filename : Str
  path : Str
deriving DecidableEq, Repr

/-- An entry of the `results` array of a response. -/
structure ResultEntry where
  /-- The field `originalName` of `/convert`, `originalPath` of `/convert-folder`. -/
  original : Str
  convertedName : Str
  /-- The field `relativePath`, of `/convert-folder` only. -/
  relativePath : Option Str
  downloadPath : Str
  format : Str
deriving DecidableEq, Repr

/-- The JSON body of a response. -/
inductive Body where
  /-- An object with the only field `error`. -/
  | error (message : Str)
  /-- An object with `success: true`, the number of files of the message, the
  `results` array and the session identifier. -/
  | results (count : Nat) (results : List ResultEntry) (session : Str)
  /-- The body of a successful `DELETE`. -/
  | deleted
deriving DecidableEq, Repr

/-- A response: its status and its body. -/
structure Response where
  status : Nat
  body : Body
deriving DecidableEq, Repr

/-- The constant `OUTPUT_DIR`. -/
def OUTPUT_DIR (env : Env) : Str :=
  join [env.tmpdir, "dark-spell-converter".toList, "output".toList]

/-- The constant `UPLOAD_DIR`. -/
def UPLOAD_DIR (env : Env) : Str :=
  join [env.tmpdir, "dark-spell-converter".toList, "uploads".toList]

/-- The text `/downloads/`. -/
def downloads : Str := "/downloads/".toList

/-- JavaScript's `s.replace(/\.png$/, '.' + type)`: a final `.png` is
replaced, another string is left as it is. -/
def replacePngSuffix (s type : Str) : Str :=
  if dotPng.isSuffixOf s then s.take (s.length - dotPng.length) ++ '.' :: type else s

/-- The loop of `POST /convert` over the files left: the events, and the
entries of the files unless a conversion threw. -/
def convertUploads (env : Env) (outputSessionDir type : Str) :
    List UploadedFile → List Event × Except Str (List ResultEntry)
  | [] => ([], .ok [])
  | file :: rest =>
    let outputFile := join [outputSessionDir, basenameExt file.filename dotPng ++ '.' :: type]
    match convertAs env file.path outputFile type with
    | .error e => ([.convert file.path outputFile type], .error e)
    | .ok evs =>
      let entry : ResultEntry :=
        { original := file.originalname
          convertedName := basename outputFile
          relativePath := none
          downloadPath := downloads ++ basename outputSessionDir ++ '/' :: basename outputFile
          format := type }
      let next := convertUploads env outputSessionDir type rest
      (.convert file.path outputFile type :: evs ++ next.1,
        match next.2 with
        | .error e => .error e
        | .ok entries => .ok (entry :: entries))

/-- The text before the error message of a failed conversion. -/
def conversionErrorText : Str := "Erreur lors de la conversion: ".toList

/-- The handler of `POST /convert`, given the field `type` of the body and the
uploaded files. -/
def postConvert (env : Env) (type : JsVal) (files : List UploadedFile) :
    List Event × Response :=
  match type with
  | .str t =>
    if t = [] ∨ (t ≠ pdf ∧ t ≠ webp) then
      ([], ⟨400, .error "Type de conversion invalide.".toList⟩)
    else if files.length = 0 then
      ([], ⟨400, .error "Aucun fichier".toList⟩)
    else
      let outputSessionDir := join [OUTPUT_DIR env, env.uuid]
      match env.mkdir outputSessionDir with
      | .error e => ([.mkdir outputSessionDir], ⟨500, .error (conversionErrorText ++ e)⟩)
      | .ok _ =>
        let run := convertUploads env outputSessionDir t files
        match run.2 with
        | .error e => (.mkdir outputSessionDir :: run.1, ⟨500, .error (conversionErrorText ++ e)⟩)
        | .ok entries =>
          (.mkdir outputSessionDir :: run.1,
            ⟨200, .results files.length entries (basename outputSessionDir)⟩)
  | _ => ([], ⟨400, .error "Type de conversion invalide.".toList⟩)

/-- The loop of `POST /convert-folder` over the files left: the events, and
the entries of the files unless a directory creation or a conversion threw. -/
def convertFolderFiles (env : Env) (folderPath outputSessionDir sessionId type : Str) :
    List Str → List Event × Except Str (List ResultEntry)
  | [] => ([], .ok [])
  | file :: rest =>
    let relativePath := relative env.cwd folderPath file
    let outputSubdir := outputSubdirOf env.cwd folderPath outputSessionDir file
    match env.mkdir outputSubdir with
    | .error e => ([.mkdir outputSubdir], .error e)
    | .ok _ =>
      let outputFile := outputFileOf env.cwd folderPath outputSessionDir type file
      match convertAs env file outputFile type with
      | .error e => ([.mkdir outputSubdir, .convert file outputFile type], .error e)
      | .ok evs =>
        let entry : ResultEntry :=
          { original := file
            convertedName := basename outputFile
            relativePath := some relativePath
            downloadPath := downloads ++ sessionId ++ '/' :: replacePngSuffix relativePath type
            format := type }
        let next := convertFolderFiles env folderPath outputSessionDir sessionId type rest
        (.mkdir outputSubdir :: .convert file outputFile type :: evs ++ next.1,
          match next.2 with
          | .error e => .error e
          | .ok entries => .ok (entry :: entries))

/-- The pattern `POST /convert-folder` gives to glob (line 174): the subtree
when the field `recursive` is the string `true`, the directory itself for
every other value. -/
def folderPattern (folderPath : Str) (recursive : JsVal) : Str :=
  if recursive = .str "true".toList then folderPath ++ "/**/*.png".toList
  else folderPath ++ "/*.png".toList

/-- The handler of `POST /convert-folder`, given the three fields of the body. -/
def postConvertFolder (env : Env) (folderPath type recursive : JsVal) :
    List Event × Response :=
  let invalid : List Event × Response := ([], ⟨400, .error "Paramètres invalides.".toList⟩)
  match type with
  | .str t =>
    if ¬ folderPath.truthy ∨ t = [] ∨ (t ≠ pdf ∧ t ≠ webp) then invalid
    else
      match folderPath with
      | .str folder =>
        match env.stat folder with
        | none => ([], ⟨400, .error "Le dossier spécifié n'existe pas.".toList⟩)
        | some false => ([], ⟨400, .error "Le chemin spécifié n'est pas un dossier.".toList⟩)
        | some true =>
          let sessionId := env.uuid
          let outputSessionDir := join [OUTPUT_DIR env, sessionId]
          match env.mkdir outputSessionDir with
          | .error e =>
            ([.mkdir outputSessionDir], ⟨500, .error (conversionErrorText ++ e)⟩)
          | .ok _ =>
            let pattern := folderPattern folder recursive
            match env.glob pattern with
            | .error e =>
              ([.mkdir outputSessionDir, .glob pattern],
                ⟨500, .error (conversionErrorText ++ e)⟩)
            | .ok files =>
              if files.length = 0 then
                ([.mkdir outputSessionDir, .glob pattern],
                  ⟨400, .error "Aucun fichier PNG trouvé dans le dossier spécifié.".toList⟩)
              else
                let run := convertFolderFiles env folder outputSessionDir sessionId t files
                match run.2 with
                | .error e =>
                  (.mkdir outputSessionDir :: .glob pattern :: run.1,
                    ⟨500, .error (conversionErrorText ++ e)⟩)
                | .ok entries =>
                  (.mkdir outputSessionDir :: .glob pattern :: run.1,
                    ⟨200, .results files.length entries sessionId⟩)
      | _ => ([], ⟨400, .error "Le dossier spécifié n'existe pas.".toList⟩)
  | _ => invalid

/-- The directory `DELETE /sessions/:sessionId` removes (line 240). -/
def sessionDirOf (env : Env) (sessionId : Str) : Str := join [OUTPUT_DIR env, sessionId]

/-- The handler of `DELETE /sessions/:sessionId`. -/
def deleteSession (env : Env) (sessionId : Str) : List Event × Response :=
  let sessionDir := sessionDirOf env sessionId
  match env.rm sessionDir with
  | .ok _ => ([.rm sessionDir], ⟨200, .deleted⟩)
  | .error e => ([.rm sessionDir], ⟨500, .error ("Erreur lors de la suppression: ".toList ++ e)⟩)

/-! ## Vocabulary of the statements: names, normal forms, traces, example worlds -/

/-- A path component that names an entry: not empty, without a separator,
and neither `.` nor `..`. -/
def isName (s : Str) : Prop := s ≠ [] ∧ '/' ∉ s ∧ s ≠ ['.'] ∧ s ≠ dotdot

instance (s : Str) : Decidable (isName s) := by unfold isName; infer_instance

/-- A stack of `normalizeString` in normal form: names above a run of `..`
that is empty unless components above the root are allowed. -/
def NormalStack (a : Bool) (rs : List Str) : Prop :=
  ∃ (k : Nat) (names : List Str), rs = names.reverse ++ List.replicate k dotdot ∧
    (a = false → k = 0) ∧ ∀ s ∈ names, isName s

/-- The stack `normalizeString` ends with on a path. -/
def stackOf (a : Bool) (p : Str) : List Str := (splitSlash p).foldl (pushSeg a) []

/-- A path written from its components, with the leading `/` of an absolute one. -/
def render (abs : Bool) (segs : List Str) : Str :=
  if abs then '/' :: joinSlash segs else joinSlash segs

/-- The path `O/names…` as the arguments of `path.join` spell it before
normalization. -/
def joined (O : Str) (names : List Str) : Str :=
  if O = [] then joinSlash names else O ++ '/' :: joinSlash names

/-- The directory part of a path written from its components. -/
def dirOf (abs : Bool) (segs : List Str) : Str :=
  if segs = [] then (if abs then ['/'] else ['.']) else render abs segs

/-- The conversions started in a run: input, output and type, in order. -/
def convertCalls : List Event → List (Str × Str × Str)
  | [] => []
  | .convert input output type :: rest => (input, output, type) :: convertCalls rest
  | _ :: rest => convertCalls rest

/-- The summaries reported in a run: success count and total. -/
def summaries : List Event → List (Nat × Nat)
  | [] => []
  | .summary successCount total :: rest => (successCount, total) :: summaries rest
  | _ :: rest => summaries rest

/-- The messages of the errors reported for a whole directory in a run. -/
def directoryErrors : List Event → List Str
  | [] => []
  | .directoryError message :: rest => message :: directoryErrors rest
  | _ :: rest => directoryErrors rest

/-- The directories whose creation was asked for in a run. -/
def mkdirCalls : List Event → List Str
  | [] => []
  | .mkdir dir :: rest => dir :: mkdirCalls rest
  | _ :: rest => mkdirCalls rest

/-- The codes given to `process.exit` in a run. -/
def exitCalls : List Event → List Nat
  | [] => []
  | .exit code :: rest => code :: exitCalls rest
  | _ :: rest => exitCalls rest

/-- Whether the conversion of `input` to `output` throws. -/
def conversionThrows (env : Env) (input output type : Str) : Bool :=
  match convertAs env input output type with
  | .error _ => true
  | .ok _ => false

/-- Whether the conversion of a discovered file by `processDirectory` throws. -/
def fileThrows (env : Env) (inputDir outputDir type file : Str) : Bool :=
  conversionThrows env file (outputFileOf env.cwd inputDir outputDir type file) type

/-- The number of files whose conversion does not throw. -/
def successes (env : Env) (inputDir outputDir type : Str) (files : List Str) : Nat :=
  (files.filter (fun f => !fileThrows env inputDir outputDir type f)).length

/-- The events of one turn of the loop of `processDirectory` when the
directory of the output is created. -/
def fileEvents (env : Env) (inputDir outputDir type file : Str) : List Event :=
  .mkdir (outputSubdirOf env.cwd inputDir outputDir file) ::
    (convertFile env file (outputFileOf env.cwd inputDir outputDir type file) type).1

/-- The events of the turns of the loop for a list of files. -/
def filesTrace (env : Env) (inputDir outputDir type : Str) : List Str → List Event
  | [] => []
  | f :: fs => fileEvents env inputDir outputDir type f ++ filesTrace env inputDir outputDir type fs

/-- An outside world in which every directory is created, glob finds five
files, and the second and the fourth file cannot be decoded. -/
def fiveFilesEnv : Env where
  cwd := "/home".toList
  tmpdir := "/tmp".toList
  stat := fun _ => some true
  mkdir := fun _ => .ok ()
  glob := fun _ => .ok ["in/a.png".toList, "in/b.png".toList, "in/c.png".toList,
    "in/d.png".toList, "in/e.png".toList]
  toBuffer := fun p =>
    if p = "in/b.png".toList ∨ p = "in/d.png".toList then .error "corrupt".toList else .ok []
  metadata := fun _ => .ok (800, 600)
  webp := fun p _ _ =>
    if p = "in/b.png".toList ∨ p = "in/d.png".toList then .error "corrupt".toList else .ok ()
  embedPng := fun _ => .ok ()
  save := fun doc => .ok (doc.pages.flatMap (fun pg => [pg.width, pg.height]))
  writeFile := fun _ _ => .ok ()
  rm := fun _ => .ok ()
  uuid := "session".toList

/-- An outside world in which the input is a directory of two files that
cannot be decoded. -/
def failingEnv : Env where
  cwd := "/home".toList
  tmpdir := "/tmp".toList
  stat := fun _ => some true
  mkdir := fun _ => .ok ()
  glob := fun _ => .ok ["in/a.png".toList, "in/b.png".toList]
  toBuffer := fun _ => .error "corrupt".toList
  metadata := fun _ => .error "corrupt".toList
  webp := fun _ _ _ => .error "corrupt".toList
  embedPng := fun _ => .ok ()
  save := fun _ => .ok []
  writeFile := fun _ _ => .ok ()
  rm := fun _ => .ok ()
  uuid := "session".toList

/-- The input files whose conversion was started in a run, in order. -/
def inputsOf (trace : List Event) : List Str := (convertCalls trace).map (fun c => c.1)

/-- The directory of the example: `a.png` and `sub/b.png`. -/
def exampleTree : List Entry :=
  [.file "a.png".toList, .dir "sub".toList [.file "b.png".toList]]

/-- An outside world in which the directory `in` holds `a.png` and
`sub/b.png`, every directory is created and every conversion succeeds: glob
answers the pattern `in/*.png` with the matches in `in`, the pattern
`in/**/*.png` with the matches in its subtree, and any other pattern with
nothing. -/
def treeEnv : Env where
  cwd := "/home".toList
  tmpdir := "/tmp".toList
  stat := fun _ => some true
  mkdir := fun _ => .ok ()
  glob := fun pattern =>
    if pattern = "in/*.png".toList then .ok (globFlat "in".toList exampleTree)
    else if pattern = "in/**/*.png".toList then .ok (globDeep "in".toList exampleTree)
    else .ok []
  toBuffer := fun _ => .ok []
  metadata := fun _ => .ok (800, 600)
  webp := fun _ _ _ => .ok ()
  embedPng := fun _ => .ok ()
  save := fun _ => .ok []
  writeFile := fun _ _ => .ok ()
  rm := fun _ => .ok ()
  uuid := "session".toList

/-- An outside world in which the directory named `in[1]` holds `a.png` and
`sub/b.png` and there is no directory `in1`.  Glob reads the `[1]` of the
patterns `in[1]/*.png` and `in[1]/**/*.png` as a character class, looks in
`in1`, and finds nothing. -/
def bracketEnv : Env where
  cwd := "/home".toList
  tmpdir := "/tmp".toList
  stat := fun _ => some true
  mkdir := fun _ => .ok ()
  glob := fun _ => .ok []
  toBuffer := fun _ => .ok []
  metadata := fun _ => .ok (800, 600)
  webp := fun _ _ _ => .ok ()
  embedPng := fun _ => .ok ()
  save := fun _ => .ok []
  writeFile := fun _ _ => .ok ()
  rm := fun _ => .ok ()
  uuid := "session".toList

/-- The world of `bracketEnv` with, next to the directory `in[1]`, a directory
`in1` that holds `n.png`: glob answers the pattern `in[1]/*.png` with the file
of `in1`. -/
def bracketSiblingEnv : Env where
  cwd := "/home".toList
  tmpdir := "/tmp".toList
  stat := fun _ => some true
  mkdir := fun _ => .ok ()
  glob := fun pattern =>
    if pattern = "in[1]/*.png".toList ∨ pattern = "in[1]/**/*.png".toList then
      .ok ["in1/n.png".toList]
    else .ok []
  toBuffer := fun _ => .ok []
  metadata := fun _ => .ok (800, 600)
  webp := fun _ _ _ => .ok ()
  embedPng := fun _ => .ok ()
  save := fun _ => .ok []
  writeFile := fun _ _ => .ok ()
  rm := fun _ => .ok ()
  uuid := "session".toList

/-- An outside world in which glob finds `in/sub/a.png` and `in/b.png` and the
directory `out/sub` cannot be created. -/
def subdirFailsEnv : Env where
  cwd := "/home".toList
  tmpdir := "/tmp".toList
  stat := fun _ => some true
  mkdir := fun p => if p = "out/sub".toList then .error "EACCES".toList else .ok ()
  glob := fun _ => .ok ["in/sub/a.png".toList, "in/b.png".toList]
  toBuffer := fun _ => .ok []
  metadata := fun _ => .ok (800, 600)
  webp := fun _ _ _ => .ok ()
  embedPng := fun _ => .ok ()
  save := fun _ => .ok []
  writeFile := fun _ _ => .ok ()
  rm := fun _ => .ok ()
  uuid := "session".toList

/-- The output path of an uploaded file in `POST /convert` (lines 117-120). -/
def uploadOutput (outputSessionDir type : Str) (file : UploadedFile) : Str :=
  join [outputSessionDir, basenameExt file.filename dotPng ++ '.' :: type]

/-- The directory of the session of a request. -/
def sessionDir (env : Env) : Str := join [OUTPUT_DIR env, env.uuid]

/-- An outside world in which the first file of a batch cannot be decoded and
the second one can: the files glob finds are `in/a.png` and `in/b.png`. -/
def firstFailsEnv : Env where
  cwd := "/home".toList
  tmpdir := "/tmp".toList
  stat := fun _ => some true
  mkdir := fun _ => .ok ()
  glob := fun _ => .ok ["in/a.png".toList, "in/b.png".toList]
  toBuffer := fun p =>
    if p = "in/a.png".toList ∨ p = "/tmp/dark-spell-converter/uploads/1-a.png".toList
    then .error "corrupt".toList else .ok []
  metadata := fun _ => .ok (800, 600)
  webp := fun p _ _ =>
    if p = "in/a.png".toList ∨ p = "/tmp/dark-spell-converter/uploads/1-a.png".toList
    then .error "corrupt".toList else .ok ()
  embedPng := fun _ => .ok ()
  save := fun _ => .ok []
  writeFile := fun _ _ => .ok ()
  rm := fun _ => .ok ()
  uuid := "session".toList

/-- The upload of `a.png`, stored by multer. -/
def uploadA : UploadedFile :=
  { originalname := "a.png".toList, filename := "1-a.png".toList,
    path := "/tmp/dark-spell-converter/uploads/1-a.png".toList }

/-- The upload of `b.png`, stored by multer. -/
def uploadB : UploadedFile :=
  { originalname := "b.png".toList, filename := "2-b.png".toList,
    path := "/tmp/dark-spell-converter/uploads/2-b.png".toList }

/-- The patterns given to glob in a run. -/
def globCalls : List Event → List Str
  | [] => []
  | .glob pattern :: rest => pattern :: globCalls rest
  | _ :: rest => globCalls rest

/-- A path that names an entry of the directory `dir` itself. -/
def directlyInside (dir p : Str) : Prop := ∃ name, isName name ∧ p = dir ++ '/' :: name

/-- The two names `OUTPUT_DIR` ends with. -/
def outputNames : List Str := ["dark-spell-converter".toList, "output".toList]

/-! ## The interactive program, single-file mode (`index-interactive.js`) -/

/-- The answer of the `validate` function of a prompt: `true`, or the message
shown before the question is asked again. -/
inductive Validation where
  | accepted
  | rejected (message : Str)
deriving DecidableEq, Repr

/-- The `validate` function of the prompt for the PNG file (lines 158-163),
given what `existsSync` answers. -/
def validateInput (existsSync : Str → Bool) (input : Str) : Validation :=
  if input = [] then .rejected "Le chemin ne peut pas être vide".toList
  else if !existsSync input then .rejected "Le fichier n'existe pas".toList
  else if !dotPng.isSuffixOf (toLowerCase input) then
    .rejected "Le fichier doit être au format PNG".toList
  else .accepted

/-- The choice made at the first prompt. -/
inductive Action where
  | single
  | directory
  | recursive
deriving DecidableEq, Repr

/-- The answers given at the prompts: the action, the input path the prompt
accepted (or the folder picked), the type, the output folder picked or typed,
and the final confirmation. -/
structure Answers where
  action : Action
  input : Str
  type : Str
  output : Str
  confirm : Bool

/-- The destination of the single-file mode (lines 221-222). -/
def singleOutputPath (outputPath inputPath type : Str) : Str :=
  let fileName := basenameExt inputPath dotPng ++ '.' :: type
  join [outputPath, fileName]

/-- `main` of `index-interactive.js` from the answers on: the events of the
run (the banner, the summary before the confirmation and the final line of
success are not recorded; no error leaves it and it never calls
`process.exit`). -/
def Interactive.main (env : Env) (answers : Answers) : List Event :=
  let outputPath :=
    if answers.action = .single then
      singleOutputPath answers.output answers.input answers.type
    else answers.output
  if !answers.confirm then []
  else
    match env.stat answers.input with
    | none =>
      [.fatal ("Erreur: Le chemin d'entrée \"".toList ++ answers.input
        ++ "\" n'existe pas".toList)]
    | some _ =>
      if answers.action = .single then
        let outputDir := dirname outputPath
        match env.mkdir outputDir with
        | .error e => [.mkdir outputDir, .fatal e]
        | .ok _ =>
          .mkdir outputDir :: (convertFile env answers.input outputPath answers.type).1
      else
        (Interactive.processDirectory env answers.input outputPath answers.type
          (decide (answers.action = .recursive))).1

/-- A file name without its extension, the extension being what
`path.extname` gives. -/
def stripExtension (name : Str) : Str := name.take (name.length - (extname name).length)

/-- The destination of the single-file mode as the specification words it:
the output folder joined with the file name of the input, its original
extension stripped and `.` and the type appended. -/
def specSingleOutputPath (outputPath inputPath type : Str) : Str :=
  join [outputPath, stripExtension (basename inputPath) ++ '.' :: type]

/-- The answers of a run on the existing file `photos/A.PNG`, to convert to
PDF into the folder `out`. -/
def upperCaseAnswers : Answers :=
  { action := .single, input := "photos/A.PNG".toList, type := pdf,
    output := "out".toList, confirm := true }

/-! ## The download links of `POST /convert-folder` and the mount `/downloads` -/

/-- The entry of the `results` array for a file of `POST /convert-folder`
(lines 197-203). -/
def folderEntry (env : Env) (folderPath outputSessionDir sessionId type file : Str) :
    ResultEntry :=
  { original := file
    convertedName := basename (outputFileOf env.cwd folderPath outputSessionDir type file)
    relativePath := some (relative env.cwd folderPath file)
    downloadPath :=
      downloads ++ sessionId ++ '/' :: replacePngSuffix (relative env.cwd folderPath file) type
    format := type }

/-- The value of a hexadecimal digit. -/
def hexValue (c : Char) : Option Nat :=
  if '0' ≤ c ∧ c ≤ '9' then some (c.toNat - '0'.toNat)
  else if 'a' ≤ c ∧ c ≤ 'f' then some (c.toNat - 'a'.toNat + 10)
  else if 'A' ≤ c ∧ c ≤ 'F' then some (c.toNat - 'A'.toNat + 10)
  else none

/-- The octet of an escape `%XY` at the head of a string, and what follows it. -/
def takeOctet : Str → Option (Nat × Str)
  | '%' :: x :: y :: rest =>
    match hexValue x, hexValue y with
    | some a, some b => some (16 * a + b, rest)
    | _, _ => none
  | _ => none

/-- The `n` continuation octets `10xxxxxx` escaped at the head of a string, and
what follows them. -/
def takeContinuationOctets : Nat → Str → Option (List Nat × Str)
  | 0, s => some ([], s)
  | n + 1, s =>
    match takeOctet s with
    | none => none
    | some (b, rest) =>
      if b / 64 = 2 then
        match takeContinuationOctets n rest with
        | none => none
        | some (bs, rest') => some (b :: bs, rest')
      else none

/-- The number of continuation octets a leading octet of UTF-8 announces, 0
when the octet cannot lead a sequence of several octets. -/
def continuationCount (b : Nat) : Nat :=
  if 192 ≤ b ∧ b < 224 then 1
  else if 224 ≤ b ∧ b < 240 then 2
  else if 240 ≤ b ∧ b < 248 then 3
  else 0

/-- The code point a leading octet and its continuation octets encode in
UTF-8, when the encoding is valid (shortest form, no surrogate, at most
U+10FFFF). -/
def utf8CodePoint (lead : Nat) (cont : List Nat) : Option Nat :=
  let v := cont.foldl (fun acc b => acc * 64 + b % 64) (lead % 2 ^ (6 - cont.length))
  let least := if cont.length = 1 then 128 else if cont.length = 2 then 2048 else 65536
  if least ≤ v ∧ v ≤ 1114111 ∧ ¬ (55296 ≤ v ∧ v ≤ 57343) then some v else none

/-- The loop of `decodeURIComponent`, one step for each character or escape
sequence read; `none` stands for the `URIError`. -/
def decodeFrom : Nat → Str → Option Str
  | _, [] => some []
  | 0, _ :: _ => none
  | fuel + 1, c :: cs =>
    if c ≠ '%' then (decodeFrom fuel cs).map (fun r => c :: r)
    else
      match takeOctet (c :: cs) with
      | none => none
      | some (b, rest) =>
        if b < 128 then (decodeFrom fuel rest).map (fun r => Char.ofNat b :: r)
        else if continuationCount b = 0 then none
        else
          match takeContinuationOctets (continuationCount b) rest with
          | none => none
          | some (bs, rest') =>
            match utf8CodePoint b bs with
            | none => none
            | some v => (decodeFrom fuel rest').map (fun r => Char.ofNat v :: r)

/-- JavaScript's `decodeURIComponent`; `none` when it throws. -/
def decodeURIComponent (s : Str) : Option Str := decodeFrom s.length s

/-- The path of a request: what precedes the first `?` or `#` of its URL. -/
def pathnameOf (url : Str) : Str := url.takeWhile (fun c => c ≠ '?' ∧ c ≠ '#')

/-- The test of `send` for a path that climbs: some component between `/` or
`\` is `..`. -/
def hasUpSegment (path : Str) : Bool :=
  (splitSlash (path.map (fun c => if c = '\\' then '/' else c))).contains dotdot

/-- The test of `send` for a dot-file: some component of more than one
character starts with a dot. -/
def containsDotFile (parts : List Str) : Bool :=
  parts.any (fun part => decide (1 < part.length) && isHidden part)

/-- The file `send` looks up under `root` for the path of a request (the
options are those `express.static` gives by default); `none` when it answers
with an error before any lookup. -/
def sendPath (root path : Str) : Option Str :=
  match decodeURIComponent path with
  | none => none
  | some decoded =>
    if decoded.contains (Char.ofNat 0) then none
    else
      let relativePath := if decoded = [] then [] else normalize ('.' :: '/' :: decoded)
      if hasUpSegment relativePath then none
      else if containsDotFile (splitSlash relativePath) then none
      else
        let file := normalize (join [root, relativePath])
        if hasTrailingSlash path then some (join [file, "index.html".toList])
        else some file

/-- The path the mount `app.use('/downloads', express.static(OUTPUT_DIR))`
(line 56) looks up for a URL of the service: the mount matches `/downloads`
in any case when `/` or nothing follows it, and hands what follows to `send`
with the root `path.resolve(OUTPUT_DIR)`; `none` when the URL is not under the
mount or is refused.  The mount on `public` that comes before it is taken to
hold no such file. -/
def downloadsMount (env : Env) (url : Str) : Option Str :=
  let pathname := pathnameOf url
  let mount := "/downloads".toList
  let rest := pathname.drop mount.length
  if toLowerCase (pathname.take mount.length) = mount ∧ (rest = [] ∨ rest.head? = some '/') then
    sendPath (resolve env.cwd (OUTPUT_DIR env)) rest
  else none

/-- A name free of the characters that have a meaning of their own in the
path of a URL or in the lookup of `send`: `%`, `?`, `#`, `\` and the null
character. -/
def urlPlain (s : Str) : Prop :=
  '%' ∉ s ∧ '?' ∉ s ∧ '#' ∉ s ∧ '\\' ∉ s ∧ Char.ofNat 0 ∉ s

instance (s : Str) : Decidable (urlPlain s) := by unfold urlPlain; infer_instance

/-- An outside world in which glob finds the one file `in/a?b.png`, every
directory is created and every conversion succeeds. -/
def queryNameEnv : Env where
  cwd := "/home".toList
  tmpdir := "/tmp".toList
  stat := fun _ => some true
  mkdir := fun _ => .ok ()
  glob := fun _ => .ok ["in/a?b.png".toList]
  toBuffer := fun _ => .ok []
  metadata := fun _ => .ok (800, 600)
  webp := fun _ _ _ => .ok ()
  embedPng := fun _ => .ok ()
  save := fun _ => .ok []
  writeFile := fun _ _ => .ok ()
  rm := fun _ => .ok ()
  uuid := "session".toList

/-! ## Facts about paths -/

theorem splitSlash_ne_nil (s : Str) : splitSlash s ≠ [] := by
  cases s with
  | nil => simp [splitSlash]
  | cons c cs =>
    unfold splitSlash
    split
    · simp
    · split <;> simp

theorem splitSlash_append_slash (a b : Str) :
    splitSlash (a ++ '/' :: b) = splitSlash a ++ splitSlash b := by
  induction a with
  | nil => simp [splitSlash]
  | cons c cs ih =>
    by_cases hc : c = '/'
    · simp [splitSlash, hc, ih]
    · have h1 : splitSlash (c :: (cs ++ '/' :: b)) =
          match splitSlash (cs ++ '/' :: b) with
          | [] => [[c]]
          | s :: ss => (c :: s) :: ss := by
        rw [splitSlash]; simp [hc]
      have h2 : splitSlash (c :: cs) =
          match splitSlash cs with
          | [] => [[c]]
          | s :: ss => (c :: s) :: ss := by
        rw [splitSlash]; simp [hc]
      rw [List.cons_append, h1, h2, ih]
      cases hs : splitSlash cs with
      | nil => exact absurd hs (splitSlash_ne_nil cs)
      | cons s ss => simp

theorem splitSlash_of_not_mem (s : Str) (h : '/' ∉ s) : splitSlash s = [s] := by
  induction s with
  | nil => simp [splitSlash]
  | cons c cs ih =>
    have hc : c ≠ '/' := fun e => h (by simp [e])
    have hcs : '/' ∉ cs := fun e => h (by simp [e])
    rw [splitSlash]; simp [hc, ih hcs]

theorem not_mem_of_mem_splitSlash (s : Str) : ∀ x ∈ splitSlash s, '/' ∉ x := by
  induction s with
  | nil => simp [splitSlash]
  | cons c cs ih =>
    by_cases hc : c = '/'
    · intro x hx
      rw [splitSlash] at hx
      simp [hc] at hx
      rcases hx with rfl | hx
      · simp
      · exact ih x hx
    · intro x hx
      rw [splitSlash] at hx
      simp only [hc, if_false] at hx
      cases hs : splitSlash cs with
      | nil => exact absurd hs (splitSlash_ne_nil cs)
      | cons s ss =>
        rw [hs] at hx ih
        simp at hx
        rcases hx with rfl | hx
        · have := ih s (by simp)
          intro hm
          simp at hm
          rcases hm with hm | hm
          · exact hc hm.symm
          · exact this hm
        · exact ih x (by simp [hx])

theorem joinSlash_cons_cons (a b : Str) (l : List Str) :
    joinSlash (a :: b :: l) = a ++ '/' :: joinSlash (b :: l) := rfl

theorem joinSlash_append_singleton (l : List Str) (hl : l ≠ []) (s : Str) :
    joinSlash (l ++ [s]) = joinSlash l ++ '/' :: s := by
  induction l with
  | nil => exact absurd rfl hl
  | cons a l ih =>
    cases l with
    | nil => simp [joinSlash]
    | cons b l =>
      have := ih (by simp)
      simp only [List.cons_append] at this ⊢
      rw [joinSlash_cons_cons, this, joinSlash_cons_cons]
      simp

theorem splitSlash_joinSlash (l : List Str) (hl : l ≠ []) (h : ∀ s ∈ l, '/' ∉ s) :
    splitSlash (joinSlash l) = l := by
  induction l with
  | nil => exact absurd rfl hl
  | cons a l ih =>
    cases l with
    | nil => simpa [joinSlash] using splitSlash_of_not_mem a (h a (by simp))
    | cons b l =>
      rw [joinSlash_cons_cons, splitSlash_append_slash,
        splitSlash_of_not_mem a (h a (by simp)), ih (by simp) (fun s hs => h s (by simp [hs]))]
      simp

theorem pushSeg_name (a : Bool) (st : List Str) (s : Str) (h : isName s) :
    pushSeg a st s = s :: st := by
  obtain ⟨h1, _, h3, h4⟩ := h
  simp [pushSeg, h1, h3, h4]

theorem foldl_pushSeg_names (a : Bool) (names : List Str) (h : ∀ s ∈ names, isName s)
    (st : List Str) : names.foldl (pushSeg a) st = names.reverse ++ st := by
  induction names generalizing st with
  | nil => simp
  | cons n ns ih =>
    rw [List.foldl_cons, pushSeg_name a st n (h n (by simp)),
      ih (fun s hs => h s (by simp [hs]))]
    simp

theorem normalStack_nil (a : Bool) : NormalStack a [] :=
  ⟨0, [], by simp, fun _ => rfl, by simp⟩

theorem normalStack_push_name (a : Bool) (rs : List Str) (h : NormalStack a rs) (s : Str)
    (hs : isName s) : NormalStack a (s :: rs) := by
  obtain ⟨k, names, rfl, hk, hn⟩ := h
  refine ⟨k, names ++ [s], by simp, hk, ?_⟩
  intro x hx
  simp at hx
  rcases hx with hx | rfl
  · exact hn x hx
  · exact hs

theorem normalStack_names (a : Bool) (names : List Str) (h : ∀ s ∈ names, isName s)
    (rs : List Str) (hrs : NormalStack a rs) : NormalStack a (names.reverse ++ rs) := by
  induction names generalizing rs with
  | nil => simpa using hrs
  | cons n ns ih =>
    have := ih (fun s hs => h s (by simp [hs])) (n :: rs)
      (normalStack_push_name a rs hrs n (h n (by simp)))
    simpa using this

theorem normalStack_mem (a : Bool) (rs : List Str) (h : NormalStack a rs) :
    ∀ s ∈ rs, s ≠ [] ∧ '/' ∉ s := by
  obtain ⟨k, names, rfl, _, hn⟩ := h
  intro s hs
  simp at hs
  rcases hs with hs | hs
  · exact ⟨(hn s hs).1, (hn s hs).2.1⟩
  · rcases hs with ⟨_, rfl⟩
    exact ⟨by simp [dotdot], by simp [dotdot]⟩

theorem normalStack_pushSeg (a : Bool) (rs : List Str) (h : NormalStack a rs) (seg : Str)
    (hseg : '/' ∉ seg) : NormalStack a (pushSeg a rs seg) := by
  unfold pushSeg
  split
  · exact h
  · rename_i h1
    split
    · rename_i h2
      obtain ⟨k, names, rfl, hk, hn⟩ := h
      cases names using List.reverseRecOn with
      | nil =>
        cases k with
        | zero =>
          cases a with
          | false => simpa using normalStack_nil false
          | true => exact ⟨1, [], by simp [h2, List.replicate], by simp, by simp⟩
        | succ k =>
          cases a with
          | false => exact absurd (hk rfl) (by simp)
          | true =>
            simp only [List.reverse_nil, List.nil_append, List.replicate_succ, if_true]
            exact ⟨k + 2, [], by simp [h2, List.replicate_succ], by simp, by simp⟩
      | append_singleton ns n =>
        have hne : n ≠ dotdot := (hn n (by simp)).2.2.2
        simp only [List.reverse_append, List.reverse_cons, List.reverse_nil, List.nil_append,
          List.cons_append, hne, if_false]
        exact ⟨k, ns, by simp, hk, fun s hs => hn s (by simp [hs])⟩
    · rename_i h2
      apply normalStack_push_name a rs h
      refine ⟨?_, hseg, ?_, h2⟩
      · intro e; exact h1 (Or.inl e)
      · intro e; exact h1 (Or.inr e)

theorem normalStack_foldl (a : Bool) (segs : List Str) (hsegs : ∀ s ∈ segs, '/' ∉ s)
    (rs : List Str) (h : NormalStack a rs) : NormalStack a (segs.foldl (pushSeg a) rs) := by
  induction segs generalizing rs with
  | nil => simpa using h
  | cons s ss ih =>
    rw [List.foldl_cons]
    exact ih (fun x hx => hsegs x (by simp [hx])) _
      (normalStack_pushSeg a rs h s (hsegs s (by simp)))

theorem foldl_pushSeg_dotdots (k j : Nat) :
    (List.replicate k dotdot).foldl (pushSeg true) (List.replicate j dotdot)
      = List.replicate (k + j) dotdot := by
  induction k generalizing j with
  | zero => simp
  | succ k ih =>
    rw [List.replicate_succ, List.foldl_cons]
    have : pushSeg true (List.replicate j dotdot) dotdot = List.replicate (j + 1) dotdot := by
      cases j with
      | zero => simp [pushSeg, dotdot]
      | succ j => simp [pushSeg, dotdot, List.replicate_succ]
    rw [this, ih (j + 1)]
    congr 1
    omega

theorem normSegs_eq (a : Bool) (p : Str) : normSegs a (splitSlash p) = (stackOf a p).reverse := rfl

theorem normalStack_stackOf (a : Bool) (p : Str) : NormalStack a (stackOf a p) :=
  normalStack_foldl a _ (not_mem_of_mem_splitSlash p) [] (normalStack_nil a)

theorem foldl_pushSeg_normal (a : Bool) (rs : List Str) (h : NormalStack a rs) :
    rs.reverse.foldl (pushSeg a) [] = rs := by
  obtain ⟨k, names, rfl, hk, hn⟩ := h
  simp only [List.reverse_append, List.reverse_replicate, List.reverse_reverse, List.foldl_append]
  have h1 : (List.replicate k dotdot).foldl (pushSeg a) [] = List.replicate k dotdot := by
    cases a with
    | false => simp [hk rfl]
    | true => simpa using foldl_pushSeg_dotdots k 0
  rw [h1, foldl_pushSeg_names a names hn]

theorem joinSlash_head? (s : Str) (l : List Str) (hs : s ≠ []) :
    (joinSlash (s :: l)).head? = s.head? := by
  cases l with
  | nil => simp [joinSlash]
  | cons b l =>
    rw [joinSlash_cons_cons]
    cases s with
    | nil => exact absurd rfl hs
    | cons c cs => simp

theorem joinSlash_ne_nil (l : List Str) (hl : l ≠ []) (h : ∀ s ∈ l, s ≠ []) :
    joinSlash l ≠ [] := by
  cases l with
  | nil => exact absurd rfl hl
  | cons a l =>
    cases l with
    | nil => simpa [joinSlash] using h a (by simp)
    | cons b l => rw [joinSlash_cons_cons]; simp

theorem joinSlash_getLast? (l : List Str) (s : Str) (hs : s ≠ []) :
    (joinSlash (l ++ [s])).getLast? = s.getLast? := by
  by_cases hl : l = []
  · subst hl; simp [joinSlash]
  · rw [joinSlash_append_singleton l hl, List.getLast?_append]
    have : ('/' :: s).getLast? = s.getLast? := by
      cases s with
      | nil => exact absurd rfl hs
      | cons c cs => simp [List.getLast?_cons_cons]
    rw [this]
    cases h : s.getLast? with
    | none => simp [List.getLast?_eq_none_iff] at h; exact absurd h hs
    | some c => simp

theorem isName_ne_nil {s : Str} (h : isName s) : s ≠ [] := h.1

theorem isName_head? {s : Str} (h : isName s) : s.head? ≠ some '/' := by
  obtain ⟨h1, h2, _, _⟩ := h
  cases s with
  | nil => exact absurd rfl h1
  | cons c cs =>
    simp only [List.head?_cons, ne_eq, Option.some.injEq]
    intro e
    exact h2 (by simp [e])

theorem isName_getLast? {s : Str} (h : isName s) : s.getLast? ≠ some '/' := by
  intro e
  exact h.2.1 (List.mem_of_getLast?_eq_some e)

theorem names_comp (names : List Str) (h : ∀ s ∈ names, isName s) :
    ∀ s ∈ names, s ≠ [] := fun s hs => (h s hs).1

theorem stackOf_nil (a : Bool) : stackOf a [] = [] := by
  simp [stackOf, splitSlash, pushSeg]

theorem joined_ne_nil (O : Str) (names : List Str) (hne : names ≠ [])
    (h : ∀ s ∈ names, isName s) : joined O names ≠ [] := by
  unfold joined
  split
  · exact joinSlash_ne_nil names hne (names_comp names h)
  · simp

theorem isAbsolute_joined (O : Str) (names : List Str) (hne : names ≠ [])
    (h : ∀ s ∈ names, isName s) : isAbsolute (joined O names) = isAbsolute O := by
  unfold joined
  split
  · rename_i hO
    subst hO
    cases names with
    | nil => exact absurd rfl hne
    | cons n ns =>
      have h1 := joinSlash_head? n ns (h n (by simp)).1
      have h2 := isName_head? (h n (by simp))
      simp only [isAbsolute, h1, List.head?_nil]
      cases hh : n.head? with
      | none => rfl
      | some c =>
        rw [hh] at h2
        have : c ≠ '/' := fun e => h2 (by rw [e])
        simp [this]
  · rename_i hO
    cases O with
    | nil => exact absurd rfl hO
    | cons c cs => simp [isAbsolute]

theorem hasTrailingSlash_joined (O : Str) (names : List Str) (hne : names ≠ [])
    (h : ∀ s ∈ names, isName s) : hasTrailingSlash (joined O names) = false := by
  obtain ⟨ns, n, rfl⟩ : ∃ ns n, names = ns ++ [n] := by
    cases names using List.reverseRecOn with
    | nil => exact absurd rfl hne
    | append_singleton ns n => exact ⟨ns, n, rfl⟩
  have hn : isName n := h n (by simp)
  have h1 := joinSlash_getLast? ns n hn.1
  have h2 := isName_getLast? hn
  have h3 : (joinSlash (ns ++ [n])).getLast? ≠ some '/' := by rw [h1]; exact h2
  have h4 : joinSlash (ns ++ [n]) ≠ [] :=
    joinSlash_ne_nil _ (by simp) (names_comp _ h)
  unfold joined hasTrailingSlash
  split
  · simpa using h3
  · have : (O ++ '/' :: joinSlash (ns ++ [n])).getLast? = (joinSlash (ns ++ [n])).getLast? := by
      rw [List.getLast?_append]
      cases hj : joinSlash (ns ++ [n]) with
      | nil => exact absurd hj h4
      | cons c cs =>
        rw [List.getLast?_cons_cons]
        cases hl : (c :: cs).getLast? with
        | none => simp [List.getLast?_eq_none_iff] at hl
        | some d => simp
    rw [this]
    simpa using h3

theorem stackOf_joined (a : Bool) (O : Str) (names : List Str) (hne : names ≠ [])
    (h : ∀ s ∈ names, isName s) :
    stackOf a (joined O names) = names.reverse ++ stackOf a O := by
  have hs : splitSlash (joinSlash names) = names :=
    splitSlash_joinSlash names hne (fun s hs => (h s hs).2.1)
  unfold joined
  split
  · rename_i hO
    subst hO
    rw [stackOf_nil]
    unfold stackOf
    rw [hs, foldl_pushSeg_names a names h]
  · unfold stackOf
    rw [splitSlash_append_slash, hs, List.foldl_append, foldl_pushSeg_names a names h]

/-- Normalizing `O/names…` keeps the names after the normalized components of `O`. -/
theorem normalize_joined (O : Str) (names : List Str) (hne : names ≠ [])
    (h : ∀ s ∈ names, isName s) :
    normalize (joined O names)
      = render (isAbsolute O) ((stackOf (!isAbsolute O) O).reverse ++ names) := by
  have h1 := joined_ne_nil O names hne h
  have h2 := isAbsolute_joined O names hne h
  have h3 := hasTrailingSlash_joined O names hne h
  have h4 := stackOf_joined (!isAbsolute O) O names hne h
  have h5 : joinSlash ((stackOf (!isAbsolute O) O).reverse ++ names) ≠ [] := by
    apply joinSlash_ne_nil _ (by simp [hne])
    intro s hs
    simp at hs
    rcases hs with hs | hs
    · exact (normalStack_mem _ _ (normalStack_stackOf _ O) s hs).1
    · exact (h s hs).1
  unfold normalize
  rw [if_neg h1]
  simp only [h2, h3, normSegs_eq, h4, List.reverse_append, List.reverse_reverse]
  rw [if_neg h5]
  simp [render]

theorem join_pair_names (O : Str) (names : List Str) (hne : names ≠ [])
    (h : ∀ s ∈ names, isName s) :
    join [O, joinSlash names]
      = render (isAbsolute O) ((stackOf (!isAbsolute O) O).reverse ++ names) := by
  rw [← normalize_joined O names hne h]
  have hj : joinSlash names ≠ [] := joinSlash_ne_nil names hne (names_comp names h)
  unfold join joined
  by_cases hO : O = []
  · subst hO
    simp [hj, joinSlash]
  · simp [hO, hj, joinSlash]

theorem dropWhile_append_of_all {α : Type} (p : α → Bool) (l m : List α)
    (h : ∀ x ∈ l, p x = true) : (l ++ m).dropWhile p = m.dropWhile p := by
  induction l with
  | nil => rfl
  | cons a l ih =>
    simp only [List.cons_append, List.dropWhile_cons, h a (by simp), if_true]
    exact ih (fun x hx => h x (by simp [hx]))

theorem takeWhile_append_of_all {α : Type} (p : α → Bool) (l m : List α)
    (h : ∀ x ∈ l, p x = true) (hm : m = [] ∨ ∃ b m', m = b :: m' ∧ p b = false) :
    (l ++ m).takeWhile p = l := by
  induction l with
  | nil =>
    rcases hm with rfl | ⟨b, m', rfl, hb⟩
    · rfl
    · simp [List.takeWhile_cons, hb]
  | cons a l ih =>
    simp only [List.cons_append, List.takeWhile_cons, h a (by simp), if_true]
    rw [ih (fun x hx => h x (by simp [hx]))]

theorem dropWhile_slash_reverse (nm : Str) (hnm : nm ≠ []) (hs : '/' ∉ nm) (m : Str) :
    (nm.reverse ++ m).dropWhile (fun c => decide (c = '/')) = nm.reverse ++ m := by
  cases hr : nm.reverse with
  | nil => simp at hr; exact absurd hr hnm
  | cons c cs =>
    have hc : c ∈ nm := by
      have : c ∈ nm.reverse := by rw [hr]; simp
      simpa using this
    have : c ≠ '/' := fun e => hs (e ▸ hc)
    simp [List.dropWhile_cons, this]

theorem dirname_append_name (pre nm : Str) (hpre : pre ≠ []) (hpre2 : pre ≠ ['/'])
    (hnm : nm ≠ []) (hs : '/' ∉ nm) : dirname (pre ++ '/' :: nm) = pre := by
  cases pre with
  | nil => exact absurd rfl hpre
  | cons c0 rest0 =>
    have h1 : (rest0 ++ '/' :: nm).reverse = nm.reverse ++ '/' :: rest0.reverse := by simp
    have h2 : ((rest0 ++ '/' :: nm).reverse.dropWhile (fun c => decide (c = '/'))).dropWhile
        (fun c => decide (c ≠ '/')) = '/' :: rest0.reverse := by
      rw [h1, dropWhile_slash_reverse nm hnm hs, dropWhile_append_of_all]
      · simp [List.dropWhile_cons]
      · intro x hx
        have : x ∈ nm := by simpa using hx
        have : x ≠ '/' := fun e => hs (e ▸ this)
        simpa using this
    simp only [dirname, List.cons_append, h2, List.length_reverse]
    have h3 : ¬ (c0 = '/' ∧ rest0.length + 1 = 1) := by
      rintro ⟨e1, e2⟩
      have : rest0 = [] := List.eq_nil_of_length_eq_zero (by omega)
      exact hpre2 (by rw [e1, this])
    rw [if_neg h3]
    simp [List.take_append_eq_append_take]

theorem dirname_name (nm : Str) (hnm : nm ≠ []) (hs : '/' ∉ nm) : dirname nm = ['.'] := by
  cases nm with
  | nil => exact absurd rfl hnm
  | cons c0 rest =>
    have hc : c0 ≠ '/' := fun e => hs (by simp [e])
    have hr : '/' ∉ rest := fun e => hs (by simp [e])
    have h2 : (rest.reverse.dropWhile (fun c => decide (c = '/'))).dropWhile
        (fun c => decide (c ≠ '/')) = [] := by
      rw [List.dropWhile_eq_nil_iff]
      intro x hx
      have hx1 : x ∈ rest.reverse := (List.dropWhile_sublist _).subset hx
      have hx2 : x ∈ rest := by simpa using hx1
      have : x ≠ '/' := fun e => hr (e ▸ hx2)
      simpa using this
    simp only [dirname, h2, hc, if_false]

theorem dirname_root_name (nm : Str) (hs : '/' ∉ nm) : dirname ('/' :: nm) = ['/'] := by
  have h2 : (nm.reverse.dropWhile (fun c => decide (c = '/'))).dropWhile
      (fun c => decide (c ≠ '/')) = [] := by
    rw [List.dropWhile_eq_nil_iff]
    intro x hx
    have hx1 : x ∈ nm.reverse := (List.dropWhile_sublist _).subset hx
    have hx2 : x ∈ nm := by simpa using hx1
    have : x ≠ '/' := fun e => hs (e ▸ hx2)
    simpa using this
  simp only [dirname, h2, if_true]

theorem dirname_render (abs : Bool) (segs : List Str) (nm : Str)
    (hsegs : ∀ s ∈ segs, s ≠ [] ∧ '/' ∉ s) (hnm : nm ≠ []) (hs : '/' ∉ nm) :
    dirname (render abs (segs ++ [nm])) = dirOf abs segs := by
  by_cases hX : segs = []
  · subst hX
    cases abs with
    | true => simpa [render, dirOf, joinSlash] using dirname_root_name nm hs
    | false => simpa [render, dirOf, joinSlash] using dirname_name nm hnm hs
  · have hj : joinSlash segs ≠ [] := joinSlash_ne_nil segs hX (fun s h => (hsegs s h).1)
    have hh : (joinSlash segs).head? ≠ some '/' := by
      cases segs with
      | nil => exact absurd rfl hX
      | cons a l =>
        rw [joinSlash_head? a l (hsegs a (by simp)).1]
        cases a with
        | nil => exact absurd rfl (hsegs [] (by simp)).1
        | cons c cs =>
          have := (hsegs (c :: cs) (by simp)).2
          simp only [List.head?_cons, ne_eq, Option.some.injEq]
          intro e
          exact this (by simp [e])
    rw [dirOf, if_neg hX]
    cases abs with
    | true =>
      simp only [render, if_true, joinSlash_append_singleton segs hX]
      have := dirname_append_name ('/' :: joinSlash segs) nm (by simp)
        (by simpa using hj) hnm hs
      simpa using this
    | false =>
      simp only [render, joinSlash_append_singleton segs hX]
      apply dirname_append_name _ nm hj _ hnm hs
      intro e
      rw [e] at hh
      simp at hh

theorem isAbsolute_dirOf (abs : Bool) (segs : List Str)
    (hsegs : ∀ s ∈ segs, s ≠ [] ∧ '/' ∉ s) : isAbsolute (dirOf abs segs) = abs := by
  unfold dirOf
  split
  · cases abs <;> simp [isAbsolute]
  · rename_i hX
    cases abs with
    | true => simp [render, isAbsolute]
    | false =>
      cases segs with
      | nil => exact absurd rfl hX
      | cons a l =>
        have hj := joinSlash_head? a l (hsegs a (by simp)).1
        cases a with
        | nil => exact absurd rfl (hsegs [] (by simp)).1
        | cons c cs =>
          have := (hsegs (c :: cs) (by simp)).2
          have hc : c ≠ '/' := fun e => this (by simp [e])
          simp only [List.head?_cons] at hj
          simp [render, isAbsolute, hj, hc]

theorem stackOf_dirOf (abs : Bool) (rs : List Str) (h : NormalStack (!abs) rs) :
    stackOf (!abs) (dirOf abs rs.reverse) = rs := by
  unfold dirOf
  split
  · rename_i hX
    have : rs = [] := by simpa using hX
    subst this
    cases abs <;> simp [stackOf, splitSlash, pushSeg]
  · rename_i hX
    have hs : splitSlash (joinSlash rs.reverse) = rs.reverse :=
      splitSlash_joinSlash _ hX (fun s hs => (normalStack_mem _ rs h s (by simpa using hs)).2)
    cases abs with
    | true =>
      have : splitSlash ('/' :: joinSlash rs.reverse) = [] :: rs.reverse := by
        rw [splitSlash]; simp [hs]
      have hr : render true rs.reverse = '/' :: joinSlash rs.reverse := by simp [render]
      rw [hr, stackOf, this, List.foldl_cons]
      have h0 : pushSeg (!true) [] [] = [] := by simp [pushSeg]
      rw [h0]
      exact foldl_pushSeg_normal _ rs h
    | false =>
      have hr : render false rs.reverse = joinSlash rs.reverse := by simp [render]
      rw [hr, stackOf, hs]
      exact foldl_pushSeg_normal _ rs h

/-- Joining a name to the directory part written from normalized components
gives the path written from the components and the name. -/
theorem join_dirOf_name (abs : Bool) (rs : List Str) (h : NormalStack (!abs) rs) (nm : Str)
    (hnm : isName nm) : join [dirOf abs rs.reverse, nm] = render abs (rs.reverse ++ [nm]) := by
  have h1 := join_pair_names (dirOf abs rs.reverse) [nm] (by simp)
    (by intro s hs; simp at hs; rw [hs]; exact hnm)
  have h2 : isAbsolute (dirOf abs rs.reverse) = abs :=
    isAbsolute_dirOf abs _ (fun s hs => normalStack_mem _ rs h s (by simpa using hs))
  rw [h2, stackOf_dirOf abs rs h] at h1
  simpa [joinSlash] using h1

theorem lastComponent_append (pre nm : Str) (hpre : pre = [] ∨ pre.getLast? = some '/')
    (hnm : nm ≠ []) (hs : '/' ∉ nm) : lastComponent (pre ++ nm) = nm := by
  unfold lastComponent
  rw [List.reverse_append, dropWhile_slash_reverse nm hnm hs, takeWhile_append_of_all]
  · simp
  · intro x hx
    have : x ∈ nm := by simpa using hx
    have : x ≠ '/' := fun e => hs (e ▸ this)
    simpa using this
  · rcases hpre with rfl | hl
    · left; rfl
    · right
      obtain ⟨ys, rfl⟩ := List.getLast?_eq_some_iff.mp hl
      exact ⟨'/', ys.reverse, by simp, by simp⟩

/-- The suffix `.png` of a file name is removed by `path.basename(file, '.png')`
when something is left of it. -/
theorem basenameExt_png (pre stem : Str) (hpre : pre = [] ∨ pre.getLast? = some '/')
    (hstem : stem ≠ []) (hs : '/' ∉ stem) :
    basenameExt (pre ++ (stem ++ dotPng)) dotPng = stem := by
  have hcomp : lastComponent (pre ++ (stem ++ dotPng)) = stem ++ dotPng :=
    lastComponent_append pre (stem ++ dotPng) hpre (by simp [hstem])
      (by simp [dotPng, hs])
  have hlen : 0 < stem.length := List.length_pos.mpr hstem
  have hd : dotPng.length = 4 := rfl
  unfold basenameExt
  have c1 : dotPng ≠ [] ∧ dotPng.length ≤ (pre ++ (stem ++ dotPng)).length := by
    refine ⟨by simp [dotPng], ?_⟩
    simp only [List.length_append]; omega
  have c2 : dotPng ≠ pre ++ (stem ++ dotPng) := by
    intro e
    have := congrArg List.length e
    simp only [List.length_append] at this
    omega
  have c3 : stem ++ dotPng ≠ [] := by simp [hstem]
  have c4 : dotPng.length ≤ (stem ++ dotPng).length := by
    simp only [List.length_append]; omega
  have c5 : dotPng.length < (stem ++ dotPng).length ∧ dotPng.isSuffixOf (stem ++ dotPng) = true := by
    refine ⟨by simp only [List.length_append]; omega, ?_⟩
    rw [List.isSuffixOf_iff_suffix]
    exact List.suffix_append stem dotPng
  rw [if_pos c1, if_neg c2]
  simp only [hcomp]
  rw [if_neg c3, if_pos c4, if_pos c5]
  simp

theorem commonPrefixLen_append (a b : List Str) : commonPrefixLen a (a ++ b) = a.length := by
  induction a with
  | nil => cases b <;> simp [commonPrefixLen]
  | cons x xs ih => simp [commonPrefixLen, ih]

theorem resolveSegs_under (cwd R : Str) (names : List Str) (hR : R ≠ []) (hne : names ≠ [])
    (h : ∀ s ∈ names, isName s) :
    resolveSegs cwd (R ++ '/' :: joinSlash names) = resolveSegs cwd R ++ names := by
  have hs : splitSlash (joinSlash names) = names :=
    splitSlash_joinSlash names hne (fun s hs => (h s hs).2.1)
  have ha : isAbsolute (R ++ '/' :: joinSlash names) = isAbsolute R := by
    cases R with
    | nil => exact absurd rfl hR
    | cons c cs => simp [isAbsolute]
  unfold resolveSegs
  rw [ha, splitSlash_append_slash, hs]
  split
  · simp [normSegs, List.foldl_append, foldl_pushSeg_names false names h]
  · simp [normSegs, List.foldl_append, foldl_pushSeg_names false names h]

/-- The path of a file under a directory, relative to the directory, is what
follows the directory in it. -/
theorem relative_under (cwd R : Str) (names : List Str) (hR : R ≠ []) (hne : names ≠ [])
    (h : ∀ s ∈ names, isName s) :
    relative cwd R (R ++ '/' :: joinSlash names) = joinSlash names := by
  unfold relative
  have c1 : R ≠ R ++ '/' :: joinSlash names := by
    intro e
    have := congrArg List.length e
    simp at this
  have c2 : resolveSegs cwd R ≠ resolveSegs cwd R ++ names := by
    intro e
    have := congrArg List.length e
    simp only [List.length_append] at this
    have : names.length = 0 := by omega
    exact hne (List.eq_nil_of_length_eq_zero this)
  rw [if_neg c1]
  simp only [resolveSegs_under cwd R names hR hne h]
  rw [if_neg c2, commonPrefixLen_append]
  simp

theorem stem_ne_nil (stem : Str) (h : matchStarDotPng (stem ++ dotPng) = true) : stem ≠ [] := by
  intro e
  subst e
  revert h
  decide

theorem isName_png (stem : Str) (hstem : '/' ∉ stem)
    (h : matchStarDotPng (stem ++ dotPng) = true) : isName (stem ++ dotPng) := by
  have hne := stem_ne_nil stem h
  have hlen : 0 < stem.length := List.length_pos.mpr hne
  refine ⟨by simp [hne], by simp [dotPng, hstem], ?_, ?_⟩
  · intro e
    have := congrArg List.length e
    simp [dotPng] at this
  · intro e
    have := congrArg List.length e
    simp [dotPng, dotdot] at this

theorem isName_typed (stem t : Str) (hstem : '/' ∉ stem) (hne : stem ≠ [])
    (ht : t = pdf ∨ t = webp) : isName (stem ++ '.' :: t) := by
  have hlen : 0 < stem.length := List.length_pos.mpr hne
  have ht2 : '/' ∉ t ∧ 3 ≤ t.length := by
    rcases ht with rfl | rfl <;> exact ⟨by decide, by decide⟩
  refine ⟨by simp, by simp [hstem, ht2.1], ?_, ?_⟩
  · intro e
    have := congrArg List.length e
    simp at this
    omega
  · intro e
    have := congrArg List.length e
    simp [dotdot] at this
    omega

theorem names_of_file (dirs : List Str) (nm : Str) (hdirs : ∀ d ∈ dirs, isName d)
    (hnm : isName nm) : ∀ s ∈ dirs ++ [nm], isName s := by
  intro s hs
  simp at hs
  rcases hs with hs | rfl
  · exact hdirs s hs
  · exact hnm

/-- The output path of the file `R/dirs…/stem.png`, written from the
normalized components of the output directory, the directories of the file
and its new name. -/
theorem outputFileOf_render (cwd R O t : Str) (dirs : List Str) (stem : Str)
    (hR : R ≠ []) (ht : t = pdf ∨ t = webp) (hdirs : ∀ d ∈ dirs, isName d)
    (hstem : '/' ∉ stem) (hmatch : matchStarDotPng (stem ++ dotPng) = true) :
    outputFileOf cwd R O t (R ++ '/' :: joinSlash (dirs ++ [stem ++ dotPng]))
      = render (isAbsolute O)
          ((stackOf (!isAbsolute O) O).reverse ++ (dirs ++ [stem ++ '.' :: t])) := by
  have hne := stem_ne_nil stem hmatch
  have hpng := isName_png stem hstem hmatch
  have hnames := names_of_file dirs _ hdirs hpng
  have hrel := relative_under cwd R (dirs ++ [stem ++ dotPng]) hR (by simp) hnames
  have hnorm : NormalStack (!isAbsolute O) (dirs.reverse ++ stackOf (!isAbsolute O) O) :=
    normalStack_names _ dirs hdirs _ (normalStack_stackOf _ O)
  have hbase : basenameExt (R ++ '/' :: joinSlash (dirs ++ [stem ++ dotPng])) dotPng = stem := by
    have hj : R ++ '/' :: joinSlash (dirs ++ [stem ++ dotPng])
        = (if dirs = [] then R ++ ['/'] else R ++ '/' :: joinSlash dirs ++ ['/'])
          ++ (stem ++ dotPng) := by
      by_cases hd : dirs = []
      · subst hd; simp [joinSlash]
      · rw [joinSlash_append_singleton dirs hd]; simp [hd]
    rw [hj]
    apply basenameExt_png _ stem _ hne hstem
    right
    split
    · simp
    · rw [List.getLast?_append]; simp
  unfold outputFileOf outputSubdirOf
  simp only [hrel, hbase]
  rw [join_pair_names O _ (by simp) hnames]
  have hd : dirname (render (isAbsolute O)
      ((stackOf (!isAbsolute O) O).reverse ++ (dirs ++ [stem ++ dotPng])))
      = dirOf (isAbsolute O) (dirs.reverse ++ stackOf (!isAbsolute O) O).reverse := by
    have := dirname_render (isAbsolute O) ((stackOf (!isAbsolute O) O).reverse ++ dirs)
      (stem ++ dotPng)
      (fun s hs => normalStack_mem _ _ hnorm s (by
        simp at hs ⊢; rcases hs with hs | hs
        · exact Or.inr hs
        · exact Or.inl hs))
      hpng.1 hpng.2.1
    simpa using this
  rw [hd, join_dirOf_name (isAbsolute O) _ hnorm _ (isName_typed stem t hstem hne ht)]
  simp

theorem joinSlash_append (a b : List Str) (ha : a ≠ []) (hb : b ≠ []) :
    joinSlash (a ++ b) = joinSlash a ++ '/' :: joinSlash b := by
  induction a with
  | nil => exact absurd rfl ha
  | cons x xs ih =>
    cases xs with
    | nil =>
      cases b with
      | nil => exact absurd rfl hb
      | cons y ys => simp [joinSlash]
    | cons z zs =>
      have := ih (by simp)
      simp only [List.cons_append] at this ⊢
      rw [joinSlash_cons_cons, this, joinSlash_cons_cons]
      simp

/-- A path written as names separated by `/`, with or without a leading
`/`, is its own normal form. -/
theorem stackOf_plain (O : Str) (onames : List Str) (hne : onames ≠ [])
    (h : ∀ s ∈ onames, isName s) (hO : O = joinSlash onames ∨ O = '/' :: joinSlash onames) :
    (stackOf (!isAbsolute O) O).reverse = onames ∧ render (isAbsolute O) onames = O := by
  have hs : splitSlash (joinSlash onames) = onames :=
    splitSlash_joinSlash onames hne (fun s hs => (h s hs).2.1)
  rcases hO with rfl | rfl
  · have ha : isAbsolute (joinSlash onames) = false := by
      have := isAbsolute_joined [] onames hne h
      simpa [joined, isAbsolute] using this
    rw [ha, stackOf, hs, foldl_pushSeg_names _ onames h]
    simp [render]
  · have ha : isAbsolute ('/' :: joinSlash onames) = true := by simp [isAbsolute]
    have hsp : splitSlash ('/' :: joinSlash onames) = [] :: onames := by
      rw [splitSlash]; simp [hs]
    rw [ha, stackOf, hsp, List.foldl_cons]
    have h0 : pushSeg (!true) [] [] = [] := by simp [pushSeg]
    rw [h0, foldl_pushSeg_names _ onames h]
    simp [render]

theorem render_append (abs : Bool) (a b : List Str) (ha : a ≠ []) (hb : b ≠ []) :
    render abs (a ++ b) = render abs a ++ '/' :: joinSlash b := by
  cases abs <;> simp [render, joinSlash_append a b ha hb]

/-! ## C1: the output path mirrors the input path -/

/-- C1: in `processDirectory`, for an input directory `R`, an output directory
`O`, a type `pdf` or `webp` and a discovered file `R/dirs…/stem.png` (the
directories are names, so the relative path is normalized and has no `..`;
the file name ends in `.png` and is matched by glob's `*.png`, which leaves
out the names that start with a dot), the output path handed to `convertFile`
is `path.join(O, "dirs…/stem." + type)`: the path of the file relative to `R`
is kept under `O` and only the extension changes.  When `O` is itself written
as names separated by `/`, this is the text `O/dirs…/stem.type`. -/
theorem processDirectory_output_mirrors_input (cwd R O t : Str) (dirs : List Str) (stem : Str)
    (hR : R ≠ []) (ht : t = pdf ∨ t = webp) (hdirs : ∀ d ∈ dirs, isName d)
    (hstem : '/' ∉ stem) (hmatch : matchStarDotPng (stem ++ dotPng) = true) :
    outputFileOf cwd R O t (R ++ '/' :: joinSlash (dirs ++ [stem ++ dotPng]))
        = join [O, joinSlash (dirs ++ [stem ++ '.' :: t])] ∧
      ∀ onames : List Str, onames ≠ [] → (∀ s ∈ onames, isName s) →
        (O = joinSlash onames ∨ O = '/' :: joinSlash onames) →
        outputFileOf cwd R O t (R ++ '/' :: joinSlash (dirs ++ [stem ++ dotPng]))
          = O ++ '/' :: joinSlash (dirs ++ [stem ++ '.' :: t]) := by
  have hne := stem_ne_nil stem hmatch
  have hnames := names_of_file dirs _ hdirs (isName_typed stem t hstem hne ht)
  have h1 := outputFileOf_render cwd R O t dirs stem hR ht hdirs hstem hmatch
  refine ⟨?_, ?_⟩
  · rw [h1, join_pair_names O _ (by simp) hnames]
  · intro onames hon hnm hO
    obtain ⟨h2, h3⟩ := stackOf_plain O onames hon hnm hO
    rw [h1, h2, render_append _ _ _ hon (by simp), h3]

/-- C1, on the example of the specification: `R/sub/a.png` converted to PDF
goes to `O/sub/a.pdf`. -/
theorem processDirectory_output_mirrors_input_witness :
    outputFileOf "/home".toList "R".toList "O".toList pdf "R/sub/a.png".toList
      = "O/sub/a.pdf".toList :=
  (processDirectory_output_mirrors_input "/home".toList "R".toList "O".toList pdf
    ["sub".toList] "a".toList (by decide) (by decide) (by decide) (by decide) (by decide)).2
    ["O".toList] (by decide) (by decide) (by decide)

/-! ## C4: distinct inputs have distinct outputs -/

theorem render_injective (abs : Bool) (a b : List Str) (ha : a ≠ []) (hb : b ≠ [])
    (hsa : ∀ s ∈ a, '/' ∉ s) (hsb : ∀ s ∈ b, '/' ∉ s) (h : render abs a = render abs b) :
    a = b := by
  have hj : joinSlash a = joinSlash b := by
    cases abs <;> simpa [render] using h
  rw [← splitSlash_joinSlash a ha hsa, ← splitSlash_joinSlash b hb hsb, hj]

/-- C4: within one directory batch no two inputs map to the same destination:
for an input directory `R`, an output directory `O` and a type `pdf` or
`webp`, two distinct discovered files `R/dirs₁…/stem₁.png` and
`R/dirs₂…/stem₂.png` are given distinct output paths by the mapping of
`processDirectory`, which is also the mapping of `POST /convert-folder`. -/
theorem processDirectory_output_injective (cwd R O t : Str) (dirs₁ dirs₂ : List Str)
    (stem₁ stem₂ : Str) (hR : R ≠ []) (ht : t = pdf ∨ t = webp)
    (hdirs₁ : ∀ d ∈ dirs₁, isName d) (hdirs₂ : ∀ d ∈ dirs₂, isName d)
    (hstem₁ : '/' ∉ stem₁) (hstem₂ : '/' ∉ stem₂)
    (hmatch₁ : matchStarDotPng (stem₁ ++ dotPng) = true)
    (hmatch₂ : matchStarDotPng (stem₂ ++ dotPng) = true)
    (hne : R ++ '/' :: joinSlash (dirs₁ ++ [stem₁ ++ dotPng])
      ≠ R ++ '/' :: joinSlash (dirs₂ ++ [stem₂ ++ dotPng])) :
    outputFileOf cwd R O t (R ++ '/' :: joinSlash (dirs₁ ++ [stem₁ ++ dotPng]))
      ≠ outputFileOf cwd R O t (R ++ '/' :: joinSlash (dirs₂ ++ [stem₂ ++ dotPng])) := by
  intro e
  rw [outputFileOf_render cwd R O t dirs₁ stem₁ hR ht hdirs₁ hstem₁ hmatch₁,
    outputFileOf_render cwd R O t dirs₂ stem₂ hR ht hdirs₂ hstem₂ hmatch₂] at e
  have hn₁ := names_of_file dirs₁ _ hdirs₁
    (isName_typed stem₁ t hstem₁ (stem_ne_nil stem₁ hmatch₁) ht)
  have hn₂ := names_of_file dirs₂ _ hdirs₂
    (isName_typed stem₂ t hstem₂ (stem_ne_nil stem₂ hmatch₂) ht)
  have hbase := normalStack_mem _ _ (normalStack_stackOf (!isAbsolute O) O)
  have hall : ∀ (names : List Str), (∀ s ∈ names, isName s) →
      ∀ s ∈ (stackOf (!isAbsolute O) O).reverse ++ names, '/' ∉ s := by
    intro names hn s hs
    simp at hs
    rcases hs with hs | hs
    · exact (hbase s hs).2
    · exact (hn s hs).2.1
  have h1 := render_injective _ _ _ (by simp) (by simp) (hall _ hn₁) (hall _ hn₂) e
  have h2 := List.append_cancel_left h1
  have h3 : dirs₁ = dirs₂ ∧ [stem₁ ++ '.' :: t] = [stem₂ ++ '.' :: t] :=
    List.append_inj' h2 rfl
  have h4 : stem₁ = stem₂ := by
    have : stem₁ ++ '.' :: t = stem₂ ++ '.' :: t := by simpa using h3.2
    exact List.append_cancel_right this
  apply hne
  rw [h3.1, h4]

/-- C4, on two files of the same name in different directories. -/
theorem processDirectory_output_injective_witness :
    outputFileOf "/home".toList "R".toList "O".toList webp "R/a.png".toList
      ≠ outputFileOf "/home".toList "R".toList "O".toList webp "R/sub/a.png".toList :=
  processDirectory_output_injective "/home".toList "R".toList "O".toList webp
    [] ["sub".toList] "a".toList "a".toList (by decide) (by decide) (by decide) (by decide)
    (by decide) (by decide) (by decide) (by decide) (by decide)

/-! ## The batch of `processDirectory` -/

theorem convertCalls_append (a b : List Event) :
    convertCalls (a ++ b) = convertCalls a ++ convertCalls b := by
  induction a with
  | nil => rfl
  | cons e a ih => cases e <;> simp [convertCalls, ih]

theorem summaries_append (a b : List Event) : summaries (a ++ b) = summaries a ++ summaries b := by
  induction a with
  | nil => rfl
  | cons e a ih => cases e <;> simp [summaries, ih]

theorem directoryErrors_append (a b : List Event) :
    directoryErrors (a ++ b) = directoryErrors a ++ directoryErrors b := by
  induction a with
  | nil => rfl
  | cons e a ih => cases e <;> simp [directoryErrors, ih]

theorem mkdirCalls_append (a b : List Event) :
    mkdirCalls (a ++ b) = mkdirCalls a ++ mkdirCalls b := by
  induction a with
  | nil => rfl
  | cons e a ih => cases e <;> simp [mkdirCalls, ih]

theorem exitCalls_append (a b : List Event) : exitCalls (a ++ b) = exitCalls a ++ exitCalls b := by
  induction a with
  | nil => rfl
  | cons e a ih => cases e <;> simp [exitCalls, ih]

/-- What a conversion that does not throw leaves in the trace: nothing for an
unknown type, else the one write of the output. -/
theorem convertAs_ok (env : Env) (input output type : Str) (evs : List Event)
    (h : convertAs env input output type = .ok evs) :
    evs = [] ∨ evs = [.webpToFile input 90 output] ∨ ∃ b, evs = [.writeFile output b] := by
  unfold convertAs at h
  split at h
  · unfold convertPngToWebp at h
    split at h
    · cases h
    · cases h; exact Or.inr (Or.inl rfl)
  · split at h
    · unfold convertPngToPdf at h
      repeat' split at h
      all_goals cases h
      exact Or.inr (Or.inr ⟨_, rfl⟩)
    · cases h; exact Or.inl rfl

theorem convertFile_snd (env : Env) (input output type : Str) :
    (convertFile env input output type).2 = !conversionThrows env input output type := by
  unfold convertFile conversionThrows
  cases convertAs env input output type <;> rfl

theorem convertFile_projections (env : Env) (input output type : Str) :
    convertCalls (convertFile env input output type).1 = [(input, output, type)] ∧
    summaries (convertFile env input output type).1 = [] ∧
    directoryErrors (convertFile env input output type).1 = [] ∧
    mkdirCalls (convertFile env input output type).1 = [] ∧
    exitCalls (convertFile env input output type).1 = [] := by
  unfold convertFile
  cases h : convertAs env input output type with
  | error e => simp [convertCalls, summaries, directoryErrors, mkdirCalls, exitCalls]
  | ok evs =>
    rcases convertAs_ok env input output type evs h with rfl | rfl | ⟨b, rfl⟩ <;>
      simp [convertCalls, summaries, directoryErrors, mkdirCalls, exitCalls]

theorem filesTrace_append (env : Env) (R O t : Str) (a b : List Str) :
    filesTrace env R O t (a ++ b) = filesTrace env R O t a ++ filesTrace env R O t b := by
  induction a with
  | nil => rfl
  | cons f fs ih => simp [filesTrace, ih]

theorem filesTrace_projections (env : Env) (R O t : Str) (files : List Str) :
    convertCalls (filesTrace env R O t files)
        = files.map (fun f => (f, outputFileOf env.cwd R O t f, t)) ∧
    summaries (filesTrace env R O t files) = [] ∧
    directoryErrors (filesTrace env R O t files) = [] ∧
    mkdirCalls (filesTrace env R O t files)
        = files.map (fun f => outputSubdirOf env.cwd R O f) ∧
    exitCalls (filesTrace env R O t files) = [] := by
  induction files with
  | nil => simp [filesTrace, convertCalls, summaries, directoryErrors, mkdirCalls, exitCalls]
  | cons f fs ih =>
    obtain ⟨h1, h2, h3, h4, h5⟩ := convertFile_projections env f (outputFileOf env.cwd R O t f) t
    obtain ⟨i1, i2, i3, i4, i5⟩ := ih
    simp [filesTrace, fileEvents, convertCalls, summaries, directoryErrors, mkdirCalls,
      exitCalls, convertCalls_append, summaries_append, directoryErrors_append,
      mkdirCalls_append, exitCalls_append, h1, h2, h3, h4, h5, i1, i2, i3, i4, i5]

/-- The loop of `processDirectory` runs through the files whose directory is
created: their events are in the trace, the count grows by their successes,
and the loop goes on with what is left. -/
theorem processFiles_append (env : Env) (R O t : Str) (pre rest : List Str) (n : Nat)
    (hpre : ∀ g ∈ pre, env.mkdir (outputSubdirOf env.cwd R O g) = .ok ()) :
    processFiles env R O t (pre ++ rest) n
      = (filesTrace env R O t pre
            ++ (processFiles env R O t rest (n + successes env R O t pre)).1,
          (processFiles env R O t rest (n + successes env R O t pre)).2) := by
  induction pre generalizing n with
  | nil => simp [filesTrace, successes]
  | cons f fs ih =>
    have hf := hpre f (by simp)
    have ih' := fun m => ih m (fun g hg => hpre g (by simp [hg]))
    simp only [List.cons_append, processFiles, hf, filesTrace, fileEvents]
    have happ : fs.append rest = fs ++ rest := rfl
    rw [happ, ih', convertFile_snd]
    have hcount : ∀ m, (if (!conversionThrows env f (outputFileOf env.cwd R O t f) t) = true
        then m + 1 else m) + successes env R O t fs = m + successes env R O t (f :: fs) := by
      intro m
      unfold successes fileThrows
      cases hc : conversionThrows env f (outputFileOf env.cwd R O t f) t
      · simp [List.filter_cons, hc]; omega
      · simp [List.filter_cons, hc]
    rw [hcount]
    simp

/-- The run of `processDirectory` when every directory is created and
some file is found: the events of every file in order, then the summary. -/
theorem processDirectory_trace (env : Env) (R O t : Str) (recursive : Bool) (files : List Str)
    (hout : env.mkdir O = .ok ())
    (hglob : env.glob (globPattern R recursive) = .ok files)
    (hsub : ∀ g ∈ files, env.mkdir (outputSubdirOf env.cwd R O g) = .ok ())
    (hne : files ≠ []) :
    processDirectory env R O t recursive
      = .mkdir O :: .glob (globPattern R recursive) :: .found files.length ::
          filesTrace env R O t files ++ [.summary (successes env R O t files) files.length] ∧
    Interactive.processDirectory env R O t recursive
      = (processDirectory env R O t recursive, successes env R O t files) := by
  have hlen : ¬ files.length = 0 := fun e => hne (List.eq_nil_of_length_eq_zero e)
  have hrun := processFiles_append env R O t files [] 0 hsub
  simp only [List.append_nil, processFiles, Nat.zero_add] at hrun
  unfold processDirectory Interactive.processDirectory
  simp only [hout, hglob, if_neg hlen, hrun]
  simp

/-- The run of `processDirectory` when no file is found. -/
theorem processDirectory_empty (env : Env) (R O t : Str) (recursive : Bool)
    (hout : env.mkdir O = .ok ())
    (hglob : env.glob (globPattern R recursive) = .ok []) :
    processDirectory env R O t recursive
      = [.mkdir O, .glob (globPattern R recursive), .noFiles R] ∧
    Interactive.processDirectory env R O t recursive
      = (processDirectory env R O t recursive, 0) := by
  unfold processDirectory Interactive.processDirectory
  simp [hout, hglob]

/-- The run of `processDirectory` when the directory of the output of a file
cannot be created: the files before it are handled, then the error is
reported for the whole directory and the run stops. -/
theorem processDirectory_mkdir_failure (env : Env) (R O t : Str) (recursive : Bool)
    (pre post : List Str) (f e : Str)
    (hout : env.mkdir O = .ok ())
    (hglob : env.glob (globPattern R recursive) = .ok (pre ++ f :: post))
    (hpre : ∀ g ∈ pre, env.mkdir (outputSubdirOf env.cwd R O g) = .ok ())
    (hf : env.mkdir (outputSubdirOf env.cwd R O f) = .error e) :
    processDirectory env R O t recursive
      = .mkdir O :: .glob (globPattern R recursive) :: .found (pre ++ f :: post).length ::
          filesTrace env R O t pre
            ++ [.mkdir (outputSubdirOf env.cwd R O f), .directoryError e] := by
  have hlen : ¬ (pre ++ f :: post).length = 0 := by simp
  have hrun := processFiles_append env R O t pre (f :: post) 0 hpre
  simp only [processFiles, hf, Nat.zero_add] at hrun
  unfold processDirectory
  simp only [hout, hglob, if_neg hlen, hrun]
  simp

/-! ## C2: every file is attempted once and the successes are counted -/

/-- C2: for every list of discovered files and every choice of the
conversions that throw, when every directory creation succeeds,
`processDirectory` starts the conversion of every discovered file exactly once
in discovery order, reports no directory error and calls no `process.exit`
(no error leaves it), and reports exactly one summary, the number of files
whose conversion did not throw out of the number of discovered files; with
no discovered file it starts no conversion and reports no error and no
summary.  The version of `index-interactive.js` has the same events and
returns that number of successes (0 when nothing is found). -/
theorem processDirectory_accounting (env : Env) (R O t : Str) (recursive : Bool)
    (files : List Str) (hmk : ∀ p, env.mkdir p = .ok ())
    (hglob : env.glob (globPattern R recursive) = .ok files) :
    convertCalls (processDirectory env R O t recursive)
        = files.map (fun f => (f, outputFileOf env.cwd R O t f, t)) ∧
    directoryErrors (processDirectory env R O t recursive) = [] ∧
    exitCalls (processDirectory env R O t recursive) = [] ∧
    summaries (processDirectory env R O t recursive)
        = (if files = [] then [] else [(successes env R O t files, files.length)]) ∧
    successes env R O t files
        = files.length - (files.filter (fileThrows env R O t)).length ∧
    Interactive.processDirectory env R O t recursive
        = (processDirectory env R O t recursive, successes env R O t files) := by
  have hsucc : successes env R O t files
      = files.length - (files.filter (fileThrows env R O t)).length := by
    have hsplit : ∀ l : List Str,
        (l.filter (fun f => !fileThrows env R O t f)).length
          + (l.filter (fileThrows env R O t)).length = l.length := by
      intro l
      induction l with
      | nil => rfl
      | cons f fs ih =>
        cases hf : fileThrows env R O t f
        · simp only [List.filter_cons, hf, Bool.not_false, if_true, Bool.false_eq_true,
            if_false, List.length_cons]
          omega
        · simp only [List.filter_cons, hf, Bool.not_true, if_true, Bool.false_eq_true,
            if_false, List.length_cons]
          omega
    have := hsplit files
    unfold successes
    omega
  by_cases hne : files = []
  · subst hne
    obtain ⟨h1, h2⟩ := processDirectory_empty env R O t recursive (hmk O) hglob
    rw [h2, h1]
    simp [convertCalls, directoryErrors, exitCalls, summaries, successes]
  · obtain ⟨h1, h2⟩ := processDirectory_trace env R O t recursive files (hmk O) hglob
      (fun g _ => hmk _) hne
    obtain ⟨p1, p2, p3, _, p5⟩ := filesTrace_projections env R O t files
    refine ⟨?_, ?_, ?_, ?_, hsucc, h2⟩
    · rw [h1]
      simp [convertCalls, convertCalls_append, p1]
    · rw [h1]
      simp [directoryErrors, directoryErrors_append, p3]
    · rw [h1]
      simp [exitCalls, exitCalls_append, p5]
    · rw [h1, if_neg hne]
      simp [summaries, summaries_append, p2]

/-- C2, on the example of the specification: five files of which two fail
give the summary 3 of 5. -/
theorem processDirectory_accounting_witness :
    summaries (processDirectory fiveFilesEnv "in".toList "out".toList pdf false) = [(3, 5)] :=
  (processDirectory_accounting fiveFilesEnv "in".toList "out".toList pdf false
    ["in/a.png".toList, "in/b.png".toList, "in/c.png".toList, "in/d.png".toList,
      "in/e.png".toList] (fun _ => rfl) rfl).2.2.2.1

/-! ## C3: the exit code of `main` -/

theorem exitCode_of_exitCalls_nil (l : List Event) (h : exitCalls l = []) : exitCode l = 0 := by
  induction l with
  | nil => rfl
  | cons e l ih =>
    cases e <;> simp [exitCalls] at h <;> simp [exitCode, ih h]

theorem processFiles_exitCalls (env : Env) (R O t : Str) (files : List Str) (n : Nat) :
    exitCalls (processFiles env R O t files n).1 = [] := by
  induction files generalizing n with
  | nil => rfl
  | cons f fs ih =>
    simp only [processFiles]
    split
    · rfl
    · simp [exitCalls, exitCalls_append, ih,
        (convertFile_projections env f (outputFileOf env.cwd R O t f) t).2.2.2.2]

/-- No run of `processDirectory` calls `process.exit`, whatever fails. -/
theorem processDirectory_exitCalls (env : Env) (R O t : Str) (recursive : Bool) :
    exitCalls (processDirectory env R O t recursive) = [] := by
  unfold processDirectory
  cases env.mkdir O with
  | error e => rfl
  | ok _ =>
    simp only []
    cases env.glob (globPattern R recursive) with
    | error e => rfl
    | ok files =>
      simp only []
      split
      · rfl
      · cases (processFiles env R O t files 0).2 <;>
          simp [exitCalls, exitCalls_append, processFiles_exitCalls]

/-- C3: `main` of `index.js` exits with code 1 when the type is neither `pdf`
nor `webp`, when the input path does not exist, or when the input is not a
directory and its extension in lower case is not `.png`, and then no directory
creation was asked for and no conversion was started; in every other case,
when directory creation does not fail, the exit code is not 1, whatever the
conversions do. -/
theorem main_exit_code (env : Env) (options : Options) :
    (((options.type ≠ pdf ∧ options.type ≠ webp) ∨ env.stat options.input = none ∨
        (env.stat options.input = some false ∧
          toLowerCase (extname options.input) ≠ dotPng)) →
      exitCode (main env options) = 1 ∧ mkdirCalls (main env options) = [] ∧
        convertCalls (main env options) = []) ∧
    (¬ ((options.type ≠ pdf ∧ options.type ≠ webp) ∨ env.stat options.input = none ∨
        (env.stat options.input = some false ∧
          toLowerCase (extname options.input) ≠ dotPng)) →
      (∀ p, env.mkdir p = .ok ()) → exitCode (main env options) ≠ 1) := by
  constructor
  · intro h
    unfold main
    by_cases ht : options.type ≠ pdf ∧ options.type ≠ webp
    · rw [if_pos ht]
      simp [exitCode, mkdirCalls, convertCalls]
    · rw [if_neg ht]
      rcases h with h | h | ⟨h1, h2⟩
      · exact absurd h ht
      · simp [h, exitCode, mkdirCalls, convertCalls]
      · simp [h1, h2, exitCode, mkdirCalls, convertCalls]
  · intro h hmk
    have ht : ¬ (options.type ≠ pdf ∧ options.type ≠ webp) := fun e => h (Or.inl e)
    unfold main
    rw [if_neg ht]
    cases hs : env.stat options.input with
    | none => exact absurd (Or.inr (Or.inl hs)) h
    | some isDirectory =>
      cases isDirectory with
      | true =>
        simp only [if_true]
        rw [exitCode_of_exitCalls_nil _ (processDirectory_exitCalls _ _ _ _ _)]
        simp
      | false =>
        have hext : toLowerCase (extname options.input) = dotPng := by
          by_contra hne
          exact h (Or.inr (Or.inr ⟨hs, hne⟩))
        simp only [Bool.false_eq_true, if_false, hext, if_true, hmk]
        rw [exitCode_of_exitCalls_nil]
        · simp
        · simp [exitCalls, (convertFile_projections env options.input options.output
            options.type).2.2.2.2]

/-- C3, on a directory whose conversions all fail: the exit code is not 1;
and on an unknown type: the exit code is 1 and nothing was created or
converted. -/
theorem main_exit_code_witness :
    exitCode (main failingEnv ⟨"in".toList, "out".toList, webp, false⟩) ≠ 1 ∧
    (exitCode (main failingEnv ⟨"in".toList, "out".toList, "gif".toList, false⟩) = 1 ∧
      mkdirCalls (main failingEnv ⟨"in".toList, "out".toList, "gif".toList, false⟩) = [] ∧
      convertCalls (main failingEnv ⟨"in".toList, "out".toList, "gif".toList, false⟩) = []) :=
  ⟨(main_exit_code failingEnv ⟨"in".toList, "out".toList, webp, false⟩).2 (by decide)
      (fun _ => rfl),
    (main_exit_code failingEnv ⟨"in".toList, "out".toList, "gif".toList, false⟩).1
      (Or.inl (by decide))⟩

/-! ## C5: the PDF has one page of the size of the image -/

/-- C5: for an image whose buffer is `image` and whose metadata report the
width `w` and the height `h`, the document `convertPngToPdf` builds has
exactly one page, of size `[w, h]`, and exactly one embedded image, drawn
exactly once on that page at `x = 0`, `y = 0` with the width `w` and the
height `h`; when embedding, serializing and writing succeed, the function
writes the serialized document to `outputPath` and nothing else. -/
theorem convertPngToPdf_single_page (env : Env) (inputPath outputPath : Str) (image : Bytes)
    (w h : Nat) (pdfBytes : Bytes)
    (hbuf : env.toBuffer inputPath = .ok image)
    (hmeta : env.metadata inputPath = .ok (w, h))
    (hembed : env.embedPng image = .ok ())
    (hsave : env.save (buildPdf image w h) = .ok pdfBytes)
    (hwrite : env.writeFile outputPath pdfBytes = .ok ()) :
    buildPdf image w h
        = { pages := [{ width := w, height := h,
                        draws := [{ image := 0, x := 0, y := 0, width := w, height := h }] }],
            images := [image] } ∧
    convertPngToPdf env inputPath outputPath = .ok [.writeFile outputPath pdfBytes] := by
  refine ⟨?_, ?_⟩
  · simp [buildPdf, PdfDoc.create, PdfDoc.addPage, PdfDoc.embed, PdfDoc.drawImage, List.modify]
  · simp [convertPngToPdf, hbuf, hmeta, hembed, hsave, hwrite]

/-- C5, on the example of the specification: an image of 800 by 600 gives one
page of 800 by 600, written to the output path. -/
theorem convertPngToPdf_single_page_witness :
    buildPdf [] 800 600
        = { pages := [{ width := 800, height := 600,
                        draws := [{ image := 0, x := 0, y := 0, width := 800, height := 600 }] }],
            images := [[]] } ∧
    convertPngToPdf fiveFilesEnv "in/a.png".toList "out/a.pdf".toList
      = .ok [.writeFile "out/a.pdf".toList [800, 600]] :=
  convertPngToPdf_single_page fiveFilesEnv "in/a.png".toList "out/a.pdf".toList [] 800 600
    [800, 600] rfl rfl rfl rfl rfl

/-! ## C6: discovery in a directory and in its subtree -/

theorem globFlat_subset_globDeep (root : Str) (entries : List Entry) :
    ∀ f ∈ globFlat root entries, f ∈ globDeep root entries := by
  induction entries with
  | nil => simp [globFlat]
  | cons e es ih =>
    intro f hf
    rw [globDeep]
    simp only [globFlat, List.filter_cons] at hf
    by_cases hm : matchStarDotPng e.name = true
    · rw [if_pos hm] at hf
      simp only [List.map_cons, List.mem_cons] at hf
      rcases hf with rfl | hf
      · apply List.mem_append_left
        cases e with
        | file n => simp [globDeepEntry, Entry.name] at hm ⊢; simp [hm]
        | dir n c => simp [globDeepEntry, Entry.name] at hm ⊢; simp [hm]
      · exact List.mem_append_right _ (ih f hf)
    · rw [if_neg hm] at hf
      exact List.mem_append_right _ (ih f hf)

/-- The files `processDirectory` handles when every directory is created are
the files glob returns. -/
theorem inputsOf_processDirectory (env : Env) (R O t : Str) (recursive : Bool)
    (files : List Str) (hmk : ∀ p, env.mkdir p = .ok ())
    (hglob : env.glob (globPattern R recursive) = .ok files) :
    inputsOf (processDirectory env R O t recursive) = files := by
  by_cases hne : files = []
  · subst hne
    rw [(processDirectory_empty env R O t recursive (hmk O) hglob).1]
    rfl
  · rw [(processDirectory_trace env R O t recursive files (hmk O) hglob (fun g _ => hmk _) hne).1]
    simp [inputsOf, convertCalls, convertCalls_append,
      (filesTrace_projections env R O t files).1, List.map_map, Function.comp_def]

/-- Where glob answers the two patterns of a directory with the matches of
`*.png` in it and in its subtree, in whatever order, every file handled without
`recursive` is handled with it. -/
theorem inputsOf_flat_subset_deep (env : Env) (R O t P : Str) (entries : List Entry)
    (flat deep : List Str) (hmk : ∀ p, env.mkdir p = .ok ())
    (hflat : env.glob (globPattern R false) = .ok flat)
    (hdeep : env.glob (globPattern R true) = .ok deep)
    (hf : ∀ f, f ∈ flat ↔ f ∈ globFlat P entries)
    (hd : ∀ f, f ∈ deep ↔ f ∈ globDeep P entries) :
    ∀ f ∈ inputsOf (processDirectory env R O t false),
      f ∈ inputsOf (processDirectory env R O t true) := by
  rw [inputsOf_processDirectory env R O t false flat hmk hflat,
    inputsOf_processDirectory env R O t true deep hmk hdeep]
  intro f h
  exact (hd f).mpr (globFlat_subset_globDeep P entries f ((hf f).mp h))

/-- The directory `in` with `a.png` and `sub/b.png`: `processDirectory` handles
`in/a.png` alone without `recursive`, and `in/a.png` and `in/sub/b.png` with
it. -/
theorem inputsOf_exampleTree :
    inputsOf (processDirectory treeEnv "in".toList "out".toList pdf false)
        = ["in/a.png".toList] ∧
    inputsOf (processDirectory treeEnv "in".toList "out".toList pdf true)
        = ["in/a.png".toList, "in/sub/b.png".toList] := by
  constructor
  · exact inputsOf_processDirectory treeEnv "in".toList "out".toList pdf false _
      (fun _ => rfl) rfl
  · exact inputsOf_processDirectory treeEnv "in".toList "out".toList pdf true _
      (fun _ => rfl) rfl

/-- C6 fails on the code for a directory whose name has a character class in
it.  The patterns are `inputDir/*.png` and `inputDir/**/*.png` with the name of
the directory pasted in as it is, so for the directory `in[1]` glob is asked
for `in[1]/*.png` and `in[1]/**/*.png`.  In the world where `in[1]` holds
`a.png` and `sub/b.png` the run finds no file, with and without `recursive`,
and reports that `in[1]` has no PNG file, where the claim has `in[1]/a.png`
found without `recursive` and both files found with it; with a directory `in1`
next to it that holds `n.png`, the file handled is `in1/n.png`, a file outside
`in[1]`, and its output `in1/n.pdf` is outside the output directory `out`. -/
theorem discovery_reads_directory_as_pattern :
    globPattern "in[1]".toList false = "in[1]/*.png".toList ∧
    globPattern "in[1]".toList true = "in[1]/**/*.png".toList ∧
    processDirectory bracketEnv "in[1]".toList "out".toList pdf false
      = [.mkdir "out".toList, .glob "in[1]/*.png".toList, .noFiles "in[1]".toList] ∧
    processDirectory bracketEnv "in[1]".toList "out".toList pdf true
      = [.mkdir "out".toList, .glob "in[1]/**/*.png".toList, .noFiles "in[1]".toList] ∧
    inputsOf (processDirectory bracketEnv "in[1]".toList "out".toList pdf false) = [] ∧
    inputsOf (processDirectory bracketEnv "in[1]".toList "out".toList pdf true) = [] ∧
    convertCalls (processDirectory bracketSiblingEnv "in[1]".toList "out".toList pdf false)
      = [("in1/n.png".toList, "in1/n.pdf".toList, pdf)] := by
  decide

/-! ## C7: which failures stop the batch of `processDirectory` -/

/-- C7 fails as stated: when the destination directory of the first file
cannot be created, the conversion of the second file, whose directory can be
created, is never started and no summary is reported; the run ends with the
error line of the whole directory. -/
theorem processDirectory_mkdir_failure_aborts :
    processDirectory subdirFailsEnv "in".toList "out".toList pdf true
      = [.mkdir "out".toList, .glob "in/**/*.png".toList, .found 2,
          .mkdir "out/sub".toList, .directoryError "EACCES".toList] ∧
    subdirFailsEnv.mkdir
        (outputSubdirOf subdirFailsEnv.cwd "in".toList "out".toList "in/b.png".toList)
      = .ok () :=
  ⟨by decide, rfl⟩

theorem successes_append (env : Env) (R O t : Str) (a b : List Str) :
    successes env R O t (a ++ b) = successes env R O t a + successes env R O t b := by
  simp [successes]

theorem successes_cons_throws (env : Env) (R O t f : Str) (fs : List Str)
    (h : fileThrows env R O t f = true) :
    successes env R O t (f :: fs) = successes env R O t fs := by
  simp [successes, List.filter_cons, h]

theorem convertError_mem_fileEvents (env : Env) (R O t f : Str)
    (h : fileThrows env R O t f = true) :
    ∃ m, Event.convertError f m ∈ fileEvents env R O t f := by
  unfold fileThrows conversionThrows at h
  unfold fileEvents convertFile
  cases hc : convertAs env f (outputFileOf env.cwd R O t f) t with
  | ok evs => rw [hc] at h; cases h
  | error e => exact ⟨e, by simp⟩

/-- C7, amended: in `processDirectory`, when the output directory is created
and the directories of the files before `f` are created,
(1) if the directories of `f` and of the files after it are created and the
conversion of `f` throws, the failure is recorded as the failure of `f` (its
error line is printed and it is not counted), every discovered file is still
attempted and the summary is reported;
(2) if the directory of the output of `f` cannot be created, the files
before `f` are the only ones attempted, no summary is reported, and the error
is reported once for the whole directory. -/
theorem processDirectory_failure_isolation (env : Env) (R O t : Str) (recursive : Bool)
    (pre post : List Str) (f : Str)
    (hout : env.mkdir O = .ok ())
    (hglob : env.glob (globPattern R recursive) = .ok (pre ++ f :: post))
    (hpre : ∀ g ∈ pre, env.mkdir (outputSubdirOf env.cwd R O g) = .ok ()) :
    ((∀ g ∈ f :: post, env.mkdir (outputSubdirOf env.cwd R O g) = .ok ()) →
      fileThrows env R O t f = true →
        inputsOf (processDirectory env R O t recursive) = pre ++ f :: post ∧
        summaries (processDirectory env R O t recursive)
          = [(successes env R O t pre + successes env R O t post, (pre ++ f :: post).length)] ∧
        directoryErrors (processDirectory env R O t recursive) = [] ∧
        ∃ m, Event.convertError f m ∈ processDirectory env R O t recursive) ∧
    (∀ e, env.mkdir (outputSubdirOf env.cwd R O f) = .error e →
        inputsOf (processDirectory env R O t recursive) = pre ∧
        summaries (processDirectory env R O t recursive) = [] ∧
        directoryErrors (processDirectory env R O t recursive) = [e]) := by
  constructor
  · intro hrest hthrow
    have hall : ∀ g ∈ pre ++ f :: post, env.mkdir (outputSubdirOf env.cwd R O g) = .ok () := by
      intro g hg
      rcases List.mem_append.mp hg with hg | hg
      · exact hpre g hg
      · exact hrest g hg
    have h1 := (processDirectory_trace env R O t recursive (pre ++ f :: post) hout hglob hall
      (by simp)).1
    obtain ⟨p1, p2, p3, _, _⟩ := filesTrace_projections env R O t (pre ++ f :: post)
    obtain ⟨m, hm⟩ := convertError_mem_fileEvents env R O t f hthrow
    refine ⟨?_, ?_, ?_, ⟨m, ?_⟩⟩
    · rw [h1]
      simp [inputsOf, convertCalls, convertCalls_append, p1, List.map_map,
        Function.comp_def]
    · rw [h1, successes_append, successes_cons_throws env R O t f post hthrow]
      simp [summaries, summaries_append, p2]
    · rw [h1]
      simp [directoryErrors, directoryErrors_append, p3]
    · rw [h1, filesTrace_append]
      simp only [filesTrace]
      simp [hm]
  · intro e he
    have h1 := processDirectory_mkdir_failure env R O t recursive pre post f e hout hglob hpre he
    obtain ⟨p1, p2, p3, _, _⟩ := filesTrace_projections env R O t pre
    refine ⟨?_, ?_, ?_⟩
    · rw [h1]
      simp [inputsOf, convertCalls, convertCalls_append, p1, List.map_map,
        Function.comp_def]
    · rw [h1]
      simp [summaries, summaries_append, p2]
    · rw [h1]
      simp [directoryErrors, directoryErrors_append, p3]

/-- C7 amended, on the five files of which the second and the fourth cannot be
decoded: the failure of the second file stops nothing. -/
theorem processDirectory_failure_isolation_witness :
    inputsOf (processDirectory fiveFilesEnv "in".toList "out".toList pdf false)
      = ["in/a.png".toList, "in/b.png".toList, "in/c.png".toList, "in/d.png".toList,
          "in/e.png".toList] ∧
    summaries (processDirectory fiveFilesEnv "in".toList "out".toList pdf false) = [(3, 5)] :=
  have h := (processDirectory_failure_isolation fiveFilesEnv "in".toList "out".toList pdf false
    ["in/a.png".toList] ["in/c.png".toList, "in/d.png".toList, "in/e.png".toList]
    "in/b.png".toList rfl rfl (fun _ _ => rfl)).1 (fun _ _ => rfl) (by decide)
  ⟨h.1, h.2.1⟩

/-! ## C8: a failed conversion in the HTTP handlers -/

theorem convertCalls_of_convertAs (env : Env) (input output type : Str) (evs : List Event)
    (h : convertAs env input output type = .ok evs) : convertCalls evs = [] := by
  rcases convertAs_ok env input output type evs h with rfl | rfl | ⟨b, rfl⟩ <;> rfl

theorem conversionThrows_false (env : Env) (input output type : Str)
    (h : conversionThrows env input output type = false) :
    ∃ evs, convertAs env input output type = .ok evs := by
  unfold conversionThrows at h
  cases hc : convertAs env input output type with
  | ok evs => exact ⟨evs, rfl⟩
  | error e => rw [hc] at h; cases h

/-- The loop of `POST /convert` stops at the first conversion that throws. -/
theorem convertUploads_failure (env : Env) (dir t : Str) (pre post : List UploadedFile)
    (f : UploadedFile) (e : Str)
    (hpre : ∀ g ∈ pre, conversionThrows env g.path (uploadOutput dir t g) t = false)
    (hf : convertAs env f.path (uploadOutput dir t f) t = .error e) :
    (convertUploads env dir t (pre ++ f :: post)).2 = .error e ∧
    inputsOf (convertUploads env dir t (pre ++ f :: post)).1
      = (pre ++ [f]).map (fun g => g.path) := by
  induction pre with
  | nil =>
    simp only [List.nil_append, convertUploads]
    unfold uploadOutput at hf
    rw [hf]
    simp [inputsOf, convertCalls]
  | cons g gs ih =>
    obtain ⟨evs, hg⟩ := conversionThrows_false _ _ _ _ (hpre g (by simp))
    obtain ⟨i1, i2⟩ := ih (fun x hx => hpre x (by simp [hx]))
    have hc := convertCalls_of_convertAs _ _ _ _ _ hg
    unfold uploadOutput at hg
    simp only [List.cons_append, convertUploads, hg]
    have happ : gs.append (f :: post) = gs ++ f :: post := rfl
    rw [happ, i1]
    refine ⟨rfl, ?_⟩
    simp only [inputsOf] at i2 ⊢
    simp [convertCalls, convertCalls_append, hc, i2]

/-- The loop of `POST /convert` goes through every file when no conversion
throws. -/
theorem convertUploads_success (env : Env) (dir t : Str) (files : List UploadedFile)
    (hall : ∀ g ∈ files, conversionThrows env g.path (uploadOutput dir t g) t = false) :
    ∃ entries, (convertUploads env dir t files).2 = .ok entries ∧
      entries.map (fun r => r.original) = files.map (fun g => g.originalname) ∧
      inputsOf (convertUploads env dir t files).1 = files.map (fun g => g.path) := by
  induction files with
  | nil => exact ⟨[], rfl, rfl, rfl⟩
  | cons g gs ih =>
    obtain ⟨evs, hg⟩ := conversionThrows_false _ _ _ _ (hall g (by simp))
    obtain ⟨entries, i1, i2, i3⟩ := ih (fun x hx => hall x (by simp [hx]))
    have hc := convertCalls_of_convertAs _ _ _ _ _ hg
    unfold uploadOutput at hg
    simp only [convertUploads, hg, i1]
    refine ⟨_, rfl, ?_, ?_⟩
    · simp [i2]
    · simp only [inputsOf] at i3 ⊢
      simp [convertCalls, convertCalls_append, hc, i3]

/-- The loop of `POST /convert-folder` stops at the first conversion that
throws. -/
theorem convertFolderFiles_failure (env : Env) (folder dir sid t : Str) (pre post : List Str)
    (f e : Str)
    (hmk : ∀ g ∈ pre ++ [f], env.mkdir (outputSubdirOf env.cwd folder dir g) = .ok ())
    (hpre : ∀ g ∈ pre, fileThrows env folder dir t g = false)
    (hf : convertAs env f (outputFileOf env.cwd folder dir t f) t = .error e) :
    (convertFolderFiles env folder dir sid t (pre ++ f :: post)).2 = .error e ∧
    inputsOf (convertFolderFiles env folder dir sid t (pre ++ f :: post)).1 = pre ++ [f] := by
  induction pre with
  | nil =>
    have hm := hmk f (by simp)
    simp only [List.nil_append, convertFolderFiles, hm, hf]
    simp [inputsOf, convertCalls]
  | cons g gs ih =>
    have hm := hmk g (by simp)
    obtain ⟨evs, hg⟩ := conversionThrows_false _ _ _ _ (hpre g (by simp))
    obtain ⟨i1, i2⟩ := ih (fun x hx => hmk x (by
      simp only [List.cons_append, List.mem_cons]; exact Or.inr hx))
      (fun x hx => hpre x (by simp [hx]))
    have hc := convertCalls_of_convertAs _ _ _ _ _ hg
    simp only [List.cons_append, convertFolderFiles, hm, hg]
    have happ : gs.append (f :: post) = gs ++ f :: post := rfl
    rw [happ, i1]
    refine ⟨rfl, ?_⟩
    simp only [inputsOf] at i2 ⊢
    simp [convertCalls, convertCalls_append, hc, i2]

/-- The loop of `POST /convert-folder` goes through every file when every
directory is created and no conversion throws. -/
theorem convertFolderFiles_success (env : Env) (folder dir sid t : Str) (files : List Str)
    (hmk : ∀ g ∈ files, env.mkdir (outputSubdirOf env.cwd folder dir g) = .ok ())
    (hall : ∀ g ∈ files, fileThrows env folder dir t g = false) :
    ∃ entries, (convertFolderFiles env folder dir sid t files).2 = .ok entries ∧
      entries.map (fun r => r.original) = files ∧
      inputsOf (convertFolderFiles env folder dir sid t files).1 = files := by
  induction files with
  | nil => exact ⟨[], rfl, rfl, rfl⟩
  | cons g gs ih =>
    have hm := hmk g (by simp)
    obtain ⟨evs, hg⟩ := conversionThrows_false _ _ _ _ (hall g (by simp))
    obtain ⟨entries, i1, i2, i3⟩ := ih (fun x hx => hmk x (by simp [hx]))
      (fun x hx => hall x (by simp [hx]))
    have hc := convertCalls_of_convertAs _ _ _ _ _ hg
    simp only [convertFolderFiles, hm, hg, i1]
    refine ⟨_, rfl, ?_, ?_⟩
    · simp [i2]
    · simp only [inputsOf] at i3 ⊢
      simp [convertCalls, convertCalls_append, hc, i3]

/-- C8 fails as stated: in both handlers, when the conversion of the first
of two files throws, the conversion of the second one, which would not
throw, is never started, and the response is a status 500 with a top-level
`error` and no `results` array. -/
theorem http_failure_aborts_batch :
    postConvert firstFailsEnv (.str pdf) [uploadA, uploadB]
      = ([.mkdir "/tmp/dark-spell-converter/output/session".toList,
          .convert "/tmp/dark-spell-converter/uploads/1-a.png".toList
            "/tmp/dark-spell-converter/output/session/1-a.pdf".toList pdf],
         ⟨500, .error "Erreur lors de la conversion: corrupt".toList⟩) ∧
    conversionThrows firstFailsEnv uploadB.path
      (uploadOutput (sessionDir firstFailsEnv) pdf uploadB) pdf = false ∧
    postConvertFolder firstFailsEnv (.str "in".toList) (.str pdf) (.bool false)
      = ([.mkdir "/tmp/dark-spell-converter/output/session".toList,
          .glob "in/*.png".toList,
          .mkdir "/tmp/dark-spell-converter/output/session".toList,
          .convert "in/a.png".toList
            "/tmp/dark-spell-converter/output/session/a.pdf".toList pdf],
         ⟨500, .error "Erreur lors de la conversion: corrupt".toList⟩) ∧
    fileThrows firstFailsEnv "in".toList (sessionDir firstFailsEnv) pdf "in/b.png".toList
      = false := by
  decide

theorem type_valid (t : Str) (ht : t = pdf ∨ t = webp) :
    ¬ (t = [] ∨ (t ≠ pdf ∧ t ≠ webp)) := by
  rcases ht with rfl | rfl <;> decide

/-- C8, amended: in `POST /convert` and `POST /convert-folder`, for a type
`pdf` or `webp` and a session directory that is created, a conversion that
throws aborts the batch: the files before it and the file itself are the only
ones whose conversion is started, and the response is a status 500 whose body
is a top-level `error` with the message of the failure; when no conversion
throws (and, in `POST /convert-folder`, the directory of every output is
created), the conversion of every file is started in order and the response
is a status 200 with a `results` array of one entry per file. -/
theorem http_batch_all_or_nothing (env : Env) (t : Str) (ht : t = pdf ∨ t = webp)
    (hsession : env.mkdir (sessionDir env) = .ok ()) :
    (∀ (pre post : List UploadedFile) (f : UploadedFile) (e : Str),
      (∀ g ∈ pre, conversionThrows env g.path (uploadOutput (sessionDir env) t g) t = false) →
      convertAs env f.path (uploadOutput (sessionDir env) t f) t = .error e →
        (postConvert env (.str t) (pre ++ f :: post)).2
          = ⟨500, .error (conversionErrorText ++ e)⟩ ∧
        inputsOf (postConvert env (.str t) (pre ++ f :: post)).1
          = (pre ++ [f]).map (fun g => g.path)) ∧
    (∀ files : List UploadedFile, files ≠ [] →
      (∀ g ∈ files, conversionThrows env g.path (uploadOutput (sessionDir env) t g) t = false) →
        ∃ entries, (postConvert env (.str t) files).2
            = ⟨200, .results files.length entries (basename (sessionDir env))⟩ ∧
          entries.map (fun r => r.original) = files.map (fun g => g.originalname) ∧
          inputsOf (postConvert env (.str t) files).1 = files.map (fun g => g.path)) ∧
    (∀ (folder : Str) (recursive : JsVal) (pre post : List Str) (f e : Str),
      folder ≠ [] → env.stat folder = some true →
      env.glob (folderPattern folder recursive) = .ok (pre ++ f :: post) →
      (∀ g ∈ pre ++ [f], env.mkdir (outputSubdirOf env.cwd folder (sessionDir env) g) = .ok ()) →
      (∀ g ∈ pre, fileThrows env folder (sessionDir env) t g = false) →
      convertAs env f (outputFileOf env.cwd folder (sessionDir env) t f) t = .error e →
        (postConvertFolder env (.str folder) (.str t) recursive).2
          = ⟨500, .error (conversionErrorText ++ e)⟩ ∧
        inputsOf (postConvertFolder env (.str folder) (.str t) recursive).1 = pre ++ [f]) ∧
    (∀ (folder : Str) (recursive : JsVal) (files : List Str),
      folder ≠ [] → env.stat folder = some true →
      env.glob (folderPattern folder recursive) = .ok files → files ≠ [] →
      (∀ g ∈ files, env.mkdir (outputSubdirOf env.cwd folder (sessionDir env) g) = .ok ()) →
      (∀ g ∈ files, fileThrows env folder (sessionDir env) t g = false) →
        ∃ entries, (postConvertFolder env (.str folder) (.str t) recursive).2
            = ⟨200, .results files.length entries env.uuid⟩ ∧
          entries.map (fun r => r.original) = files ∧
          inputsOf (postConvertFolder env (.str folder) (.str t) recursive).1 = files) := by
  have hv := type_valid t ht
  have hs : env.mkdir (join [OUTPUT_DIR env, env.uuid]) = .ok () := hsession
  refine ⟨?_, ?_, ?_, ?_⟩
  · intro pre post f e hpre hf
    obtain ⟨h1, h2⟩ := convertUploads_failure env (sessionDir env) t pre post f e hpre hf
    have hlen : ¬ (pre ++ f :: post).length = 0 := by simp
    unfold sessionDir at h1 h2
    simp only [postConvert, if_neg hv, if_neg hlen, hs, h1]
    refine ⟨trivial, ?_⟩
    simp only [inputsOf] at h2 ⊢
    simp [convertCalls, h2]
  · intro files hne hall
    obtain ⟨entries, h1, h2, h3⟩ := convertUploads_success env (sessionDir env) t files hall
    have hlen : ¬ files.length = 0 := fun e => hne (List.eq_nil_of_length_eq_zero e)
    unfold sessionDir at h1 h3 ⊢
    refine ⟨entries, ?_, h2, ?_⟩
    · simp only [postConvert, if_neg hv, if_neg hlen, hs, h1]
    · simp only [postConvert, if_neg hv, if_neg hlen, hs, h1]
      simp only [inputsOf] at h3 ⊢
      simp [convertCalls, h3]
  · intro folder recursive pre post f e hfolder hstat hglob hmk hpre hf
    obtain ⟨h1, h2⟩ := convertFolderFiles_failure env folder (sessionDir env) env.uuid t
      pre post f e hmk hpre hf
    have hlen : ¬ (pre ++ f :: post).length = 0 := by simp
    have hc : ¬ (¬ (JsVal.str folder).truthy = true ∨ t = [] ∨ (t ≠ pdf ∧ t ≠ webp)) := by
      simp only [JsVal.truthy, not_or]
      exact ⟨by simp [hfolder], fun e => hv (Or.inl e), fun e => hv (Or.inr e)⟩
    unfold sessionDir at h1 h2
    simp only [postConvertFolder, if_neg hc, hstat, hs, hglob, if_neg hlen, h1]
    refine ⟨trivial, ?_⟩
    simp only [inputsOf] at h2 ⊢
    simp [convertCalls, h2]
  · intro folder recursive files hfolder hstat hglob hne hmk hall
    obtain ⟨entries, h1, h2, h3⟩ := convertFolderFiles_success env folder (sessionDir env)
      env.uuid t files hmk hall
    have hlen : ¬ files.length = 0 := fun e => hne (List.eq_nil_of_length_eq_zero e)
    have hc : ¬ (¬ (JsVal.str folder).truthy = true ∨ t = [] ∨ (t ≠ pdf ∧ t ≠ webp)) := by
      simp only [JsVal.truthy, not_or]
      exact ⟨by simp [hfolder], fun e => hv (Or.inl e), fun e => hv (Or.inr e)⟩
    unfold sessionDir at h1 h3
    refine ⟨entries, ?_, h2, ?_⟩
    · simp only [postConvertFolder, if_neg hc, hstat, hs, hglob, if_neg hlen, h1]
    · simp only [postConvertFolder, if_neg hc, hstat, hs, hglob, if_neg hlen, h1]
      simp only [inputsOf] at h3 ⊢
      simp [convertCalls, h3]

/-- C8 amended, on two uploads of which the first cannot be decoded. -/
theorem http_batch_all_or_nothing_witness :
    (postConvert firstFailsEnv (.str pdf) ([] ++ uploadA :: [uploadB])).2
        = ⟨500, .error (conversionErrorText ++ "corrupt".toList)⟩ ∧
    inputsOf (postConvert firstFailsEnv (.str pdf) ([] ++ uploadA :: [uploadB])).1
        = ([] ++ [uploadA]).map (fun (g : UploadedFile) => g.path) :=
  (http_batch_all_or_nothing firstFailsEnv pdf (Or.inl rfl) rfl).1 [] [uploadB] uploadA
    "corrupt".toList (fun _ h => absurd h (List.not_mem_nil _)) rfl

/-! ## C9: the field `recursive` of `POST /convert-folder` -/

theorem globCalls_append (a b : List Event) : globCalls (a ++ b) = globCalls a ++ globCalls b := by
  induction a with
  | nil => rfl
  | cons e a ih => cases e <;> simp [globCalls, ih]

theorem globCalls_of_convertAs (env : Env) (input output type : Str) (evs : List Event)
    (h : convertAs env input output type = .ok evs) : globCalls evs = [] := by
  rcases convertAs_ok env input output type evs h with rfl | rfl | ⟨b, rfl⟩ <;> rfl

theorem globCalls_convertFolderFiles (env : Env) (folder dir sid t : Str) (files : List Str) :
    globCalls (convertFolderFiles env folder dir sid t files).1 = [] := by
  induction files with
  | nil => rfl
  | cons f fs ih =>
    simp only [convertFolderFiles]
    cases env.mkdir (outputSubdirOf env.cwd folder dir f) with
    | error e => rfl
    | ok _ =>
      simp only []
      cases hc : convertAs env f (outputFileOf env.cwd folder dir t f) t with
      | error e => rfl
      | ok evs =>
        simp [globCalls, globCalls_append, globCalls_of_convertAs _ _ _ _ _ hc, ih]

/-- C9 fails as stated: with the JSON boolean `true` in the field `recursive`,
for a folder that holds `a.png` and `sub/b.png`, glob is given the pattern of
the folder itself, `in/*.png`, and `in/sub/b.png`, which is in the subtree, is
not converted. -/
theorem convertFolder_boolean_true_not_recursive :
    globCalls (postConvertFolder treeEnv (.str "in".toList) (.str pdf) (.bool true)).1
      = ["in/*.png".toList] ∧
    inputsOf (postConvertFolder treeEnv (.str "in".toList) (.str pdf) (.bool true)).1
      = ["in/a.png".toList] ∧
    "in/sub/b.png".toList ∈ globDeep "in".toList exampleTree := by
  decide

/-- C9, amended: for a request of `POST /convert-folder` whose folder exists
and is a directory, whose type is `pdf` or `webp` and whose session directory
is created, glob is called once, with the pattern of the whole subtree
`folderPath/**/*.png` when the field `recursive` is the string `true`, and with
the pattern of the folder itself `folderPath/*.png` for every other value, the
JSON booleans `true` and `false` included. -/
theorem convertFolder_recursive_flag (env : Env) (folder t : Str) (recursive : JsVal)
    (hfolder : folder ≠ []) (ht : t = pdf ∨ t = webp) (hstat : env.stat folder = some true)
    (hsession : env.mkdir (sessionDir env) = .ok ()) :
    globCalls (postConvertFolder env (.str folder) (.str t) recursive).1
        = [globPattern folder (decide (recursive = .str "true".toList))] ∧
    (recursive = .str "true".toList →
      globCalls (postConvertFolder env (.str folder) (.str t) recursive).1
        = [folder ++ "/**/*.png".toList]) ∧
    (recursive ≠ .str "true".toList →
      globCalls (postConvertFolder env (.str folder) (.str t) recursive).1
        = [folder ++ "/*.png".toList]) := by
  have hv := type_valid t ht
  have hs : env.mkdir (join [OUTPUT_DIR env, env.uuid]) = .ok () := hsession
  have hc : ¬ (¬ (JsVal.str folder).truthy = true ∨ t = [] ∨ (t ≠ pdf ∧ t ≠ webp)) := by
    simp only [JsVal.truthy, not_or]
    exact ⟨by simp [hfolder], fun e => hv (Or.inl e), fun e => hv (Or.inr e)⟩
  have hp : folderPattern folder recursive
      = globPattern folder (decide (recursive = .str "true".toList)) := by
    unfold folderPattern globPattern
    by_cases h : recursive = .str "true".toList <;> simp [h]
  have main : globCalls (postConvertFolder env (.str folder) (.str t) recursive).1
      = [globPattern folder (decide (recursive = .str "true".toList))] := by
    simp only [postConvertFolder, if_neg hc, hstat, hs, hp]
    cases env.glob (globPattern folder (decide (recursive = .str "true".toList))) with
    | error e => rfl
    | ok files =>
      simp only []
      split
      · rfl
      · cases (convertFolderFiles env folder (join [OUTPUT_DIR env, env.uuid]) env.uuid t
            files).2 <;> simp [globCalls, globCalls_convertFolderFiles]
  refine ⟨main, ?_, ?_⟩
  · intro h
    rw [main, decide_eq_true h]
    rfl
  · intro h
    rw [main, decide_eq_false h]
    rfl

/-- C9 amended, on the folder with `a.png` and `sub/b.png`: the string `true`
gives the pattern of the subtree. -/
theorem convertFolder_recursive_flag_witness :
    globCalls (postConvertFolder treeEnv (.str "in".toList) (.str pdf)
        (.str "true".toList)).1 = ["in".toList ++ "/**/*.png".toList] :=
  (convertFolder_recursive_flag treeEnv "in".toList pdf (.str "true".toList) (by decide)
    (Or.inl rfl) rfl rfl).2.1 rfl

/-! ## C10: what `DELETE /sessions/:sessionId` removes -/

theorem outputNames_names : ∀ s ∈ outputNames, isName s := by decide

/-- The constant `OUTPUT_DIR` written from the normalized components of the
temporary directory and its own two names. -/
theorem OUTPUT_DIR_render (env : Env) :
    OUTPUT_DIR env = render (isAbsolute env.tmpdir)
      ((stackOf (!isAbsolute env.tmpdir) env.tmpdir).reverse ++ outputNames) := by
  rw [← normalize_joined env.tmpdir outputNames (by decide) outputNames_names]
  unfold OUTPUT_DIR join joined
  by_cases h : env.tmpdir = []
  · simp [h, outputNames, joinSlash]
  · simp [h, outputNames, joinSlash]

/-- C10 fails as stated: the identifier `..`, which the route accepts, makes
the handler remove the parent of `OUTPUT_DIR`, a path that is not inside
`OUTPUT_DIR`, and the identifier `.` makes it remove `OUTPUT_DIR` itself. -/
theorem deleteSession_escapes_output_dir :
    OUTPUT_DIR treeEnv = "/tmp/dark-spell-converter/output".toList ∧
    deleteSession treeEnv "..".toList
      = ([.rm "/tmp/dark-spell-converter".toList], ⟨200, .deleted⟩) ∧
    ¬ directlyInside (OUTPUT_DIR treeEnv) (sessionDirOf treeEnv "..".toList) ∧
    sessionDirOf treeEnv ".".toList = OUTPUT_DIR treeEnv := by
  refine ⟨by decide, by decide, ?_, by decide⟩
  rintro ⟨name, _, h⟩
  have h1 : sessionDirOf treeEnv "..".toList = "/tmp/dark-spell-converter".toList := by decide
  have h2 : OUTPUT_DIR treeEnv = "/tmp/dark-spell-converter/output".toList := by decide
  rw [h1, h2] at h
  have := congrArg List.length h
  simp at this

/-- C10, amended: for a session identifier that is a single name (not empty,
without `/`, neither `.` nor `..`, as the identifiers the service issues are),
the path `DELETE /sessions/:sessionId` removes is `OUTPUT_DIR/sessionId`, an entry
of `OUTPUT_DIR` itself: its parent directory is `OUTPUT_DIR` and it is not
`OUTPUT_DIR`. -/
theorem deleteSession_inside_output_dir (env : Env) (sessionId : Str)
    (hid : isName sessionId) :
    (deleteSession env sessionId).1 = [.rm (OUTPUT_DIR env ++ '/' :: sessionId)] ∧
    directlyInside (OUTPUT_DIR env) (sessionDirOf env sessionId) ∧
    dirname (sessionDirOf env sessionId) = OUTPUT_DIR env ∧
    sessionDirOf env sessionId ≠ OUTPUT_DIR env := by
  have hnorm : NormalStack (!isAbsolute env.tmpdir)
      (outputNames.reverse ++ stackOf (!isAbsolute env.tmpdir) env.tmpdir) :=
    normalStack_names _ outputNames outputNames_names _ (normalStack_stackOf _ env.tmpdir)
  have hne : (stackOf (!isAbsolute env.tmpdir) env.tmpdir).reverse ++ outputNames ≠ [] := by
    simp [outputNames]
  have hdir : OUTPUT_DIR env = dirOf (isAbsolute env.tmpdir)
      (outputNames.reverse ++ stackOf (!isAbsolute env.tmpdir) env.tmpdir).reverse := by
    rw [OUTPUT_DIR_render, dirOf]
    simp only [List.reverse_append, List.reverse_reverse]
    rw [if_neg hne]
  have hjoin : sessionDirOf env sessionId = OUTPUT_DIR env ++ '/' :: sessionId := by
    unfold sessionDirOf
    rw [hdir, join_dirOf_name _ _ hnorm sessionId hid]
    simp only [List.reverse_append, List.reverse_reverse]
    rw [render_append _ _ _ hne (by simp), dirOf, if_neg hne]
    simp [joinSlash]
  have hparent : dirname (sessionDirOf env sessionId) = OUTPUT_DIR env := by
    have hmem : ∀ s ∈ (stackOf (!isAbsolute env.tmpdir) env.tmpdir).reverse ++ outputNames,
        s ≠ [] ∧ '/' ∉ s := by
      intro s hs
      apply normalStack_mem _ _ hnorm s
      simp only [List.mem_append, List.mem_reverse] at hs ⊢
      exact hs.symm
    have hr := render_append (isAbsolute env.tmpdir) _ [sessionId] hne (by simp)
    simp only [joinSlash] at hr
    rw [hjoin, OUTPUT_DIR_render, ← hr,
      dirname_render _ _ sessionId hmem hid.1 hid.2.1, dirOf, if_neg hne]
  refine ⟨?_, ⟨sessionId, hid, hjoin⟩, hparent, ?_⟩
  · unfold deleteSession
    simp only [hjoin]
    cases env.rm (OUTPUT_DIR env ++ '/' :: sessionId) <;> rfl
  · rw [hjoin]
    intro e
    have := congrArg List.length e
    simp at this

/-- C10 amended, on an identifier as the service issues them. -/
theorem deleteSession_inside_output_dir_witness :
    (deleteSession treeEnv "3f2a".toList).1
      = [.rm (OUTPUT_DIR treeEnv ++ '/' :: "3f2a".toList)] ∧
    directlyInside (OUTPUT_DIR treeEnv) (sessionDirOf treeEnv "3f2a".toList) ∧
    dirname (sessionDirOf treeEnv "3f2a".toList) = OUTPUT_DIR treeEnv ∧
    sessionDirOf treeEnv "3f2a".toList ≠ OUTPUT_DIR treeEnv :=
  deleteSession_inside_output_dir treeEnv "3f2a".toList (by decide)

/-! ## C11: the destination of the single-file mode -/

theorem extname_png (stem : Str) (hstem : stem ≠ []) (hs : '/' ∉ stem) :
    extname (stem ++ dotPng) = dotPng := by
  have hcomp : lastComponent (stem ++ dotPng) = stem ++ dotPng := by
    have := lastComponent_append [] (stem ++ dotPng) (Or.inl rfl) (by simp [hstem])
      (by simp [dotPng, hs])
    simpa using this
  have hlen : 0 < stem.length := List.length_pos.mpr hstem
  have hafter : ((stem ++ dotPng).reverse.takeWhile (fun c => decide (c ≠ '.'))).reverse
      = ['p', 'n', 'g'] := by
    simp [dotPng, List.takeWhile]
  have hd : dotPng.length = 4 := rfl
  unfold extname
  simp only [hcomp, hafter]
  have c1 : ¬ ['p', 'n', 'g'].length = (stem ++ dotPng).length := by
    simp only [List.length_append, hd, List.length_cons, List.length_nil]; omega
  have c2 : ¬ ['p', 'n', 'g'].length + 1 = (stem ++ dotPng).length := by
    simp only [List.length_append, hd, List.length_cons, List.length_nil]; omega
  have c3 : ¬ stem ++ dotPng = dotdot := by
    intro e
    have := congrArg List.length e
    simp [dotPng, dotdot] at this
  rw [if_neg c1, if_neg c2, if_neg c3]
  have : (stem ++ dotPng).length - ['p', 'n', 'g'].length - 1 = stem.length := by
    simp only [List.length_append, hd, List.length_cons, List.length_nil]; omega
  rw [this]
  simp

/-- On an input whose name ends in `.png` in lower case, with something before
it, the destination of the single-file mode is the one the specification
describes. -/
theorem singleOutputPath_lower_case (outputPath pre stem type : Str)
    (hpre : pre = [] ∨ pre.getLast? = some '/') (hstem : stem ≠ []) (hs : '/' ∉ stem) :
    singleOutputPath outputPath (pre ++ (stem ++ dotPng)) type
      = specSingleOutputPath outputPath (pre ++ (stem ++ dotPng)) type := by
  have hbase : basename (pre ++ (stem ++ dotPng)) = stem ++ dotPng :=
    lastComponent_append pre (stem ++ dotPng) hpre (by simp [hstem]) (by simp [dotPng, hs])
  unfold singleOutputPath specSingleOutputPath stripExtension
  simp only [basenameExt_png pre stem hpre hstem hs, hbase, extname_png stem hstem hs]
  simp

/-- C11 fails on the code: the path `photos/A.PNG` of an existing file is
accepted by the validation of the prompt, which compares the extension in
lower case, but the destination computed for the folder `out` and the type
`pdf` is `out/A.PNG.pdf`, the whole file name with `.pdf` appended, where the
input's file name with its extension stripped and `.pdf` appended gives
`out/A.pdf`; the conversion is started with `out/A.PNG.pdf` as its output. -/
theorem single_file_upper_case_extension_kept :
    validateInput (fun _ => true) "photos/A.PNG".toList = .accepted ∧
    singleOutputPath "out".toList "photos/A.PNG".toList pdf = "out/A.PNG.pdf".toList ∧
    specSingleOutputPath "out".toList "photos/A.PNG".toList pdf = "out/A.pdf".toList ∧
    convertCalls (Interactive.main treeEnv upperCaseAnswers)
      = [("photos/A.PNG".toList, "out/A.PNG.pdf".toList, pdf)] := by
  decide

/-! ## C12: the download path of `POST /convert-folder` -/

/-- C12 fails as stated: for the discovered file `in/a?b.png` the handler
writes `…/output/session/a?b.pdf` and returns the download path
`/downloads/session/a?b.pdf`; the path of that URL ends before the `?`, so the
mount looks up `…/output/session/a`, which is not the file that was written. -/
theorem download_url_misses_written_file :
    postConvertFolder queryNameEnv (.str "in".toList) (.str pdf) (.bool false)
      = ([.mkdir "/tmp/dark-spell-converter/output/session".toList,
          .glob "in/*.png".toList,
          .mkdir "/tmp/dark-spell-converter/output/session".toList,
          .convert "in/a?b.png".toList
            "/tmp/dark-spell-converter/output/session/a?b.pdf".toList pdf,
          .writeFile "/tmp/dark-spell-converter/output/session/a?b.pdf".toList []],
         ⟨200, .results 1
            [{ original := "in/a?b.png".toList
               convertedName := "a?b.pdf".toList
               relativePath := some "a?b.png".toList
               downloadPath := "/downloads/session/a?b.pdf".toList
               format := pdf }]
            "session".toList⟩) ∧
    downloadsMount queryNameEnv "/downloads/session/a?b.pdf".toList
      = some "/tmp/dark-spell-converter/output/session/a".toList := by
  decide

theorem decodeFrom_plain (fuel : Nat) (s : Str) (hfuel : s.length ≤ fuel) (h : '%' ∉ s) :
    decodeFrom fuel s = some s := by
  induction s generalizing fuel with
  | nil => cases fuel <;> rfl
  | cons c cs ih =>
    cases fuel with
    | zero => simp at hfuel
    | succ fuel =>
      have hc : c ≠ '%' := fun e => h (by simp [e])
      have hcs : '%' ∉ cs := fun e => h (by simp [e])
      have hlen : cs.length ≤ fuel := by simpa using hfuel
      simp [decodeFrom, hc, ih fuel hlen hcs]

theorem decodeURIComponent_plain (s : Str) (h : '%' ∉ s) : decodeURIComponent s = some s :=
  decodeFrom_plain s.length s (Nat.le_refl _) h

theorem pathnameOf_plain (url : Str) (h1 : '?' ∉ url) (h2 : '#' ∉ url) : pathnameOf url = url := by
  unfold pathnameOf
  rw [List.takeWhile_eq_self_iff]
  intro x hx
  have hx1 : x ≠ '?' := fun e => h1 (e ▸ hx)
  have hx2 : x ≠ '#' := fun e => h2 (e ▸ hx)
  simp [hx1, hx2]

theorem mem_joinSlash (l : List Str) (c : Char) (h : c ∈ joinSlash l) :
    c = '/' ∨ ∃ s ∈ l, c ∈ s := by
  induction l with
  | nil => simp [joinSlash] at h
  | cons a l ih =>
    cases l with
    | nil => exact Or.inr ⟨a, by simp, by simpa [joinSlash] using h⟩
    | cons b l =>
      rw [joinSlash_cons_cons] at h
      simp only [List.mem_append, List.mem_cons] at h
      rcases h with h | h | h
      · exact Or.inr ⟨a, by simp, h⟩
      · exact Or.inl h
      · rcases ih h with h | ⟨s, hs, hc⟩
        · exact Or.inl h
        · exact Or.inr ⟨s, by simp [hs], hc⟩

/-- A path written from normalized components is its own normal form. -/
theorem normalize_render (abs : Bool) (rs : List Str) (h : NormalStack (!abs) rs)
    (hne : rs ≠ []) : normalize (render abs rs.reverse) = render abs rs.reverse := by
  have hne' : rs.reverse ≠ [] := by simpa using hne
  have hmem : ∀ s ∈ rs.reverse, s ≠ [] ∧ '/' ∉ s :=
    fun s hs => normalStack_mem _ rs h s (by simpa using hs)
  have hd : dirOf abs rs.reverse = render abs rs.reverse := by rw [dirOf, if_neg hne']
  have h1 : isAbsolute (render abs rs.reverse) = abs := by
    rw [← hd]; exact isAbsolute_dirOf abs _ hmem
  have h2 : stackOf (!abs) (render abs rs.reverse) = rs := by
    rw [← hd]; exact stackOf_dirOf abs rs h
  have hj : joinSlash rs.reverse ≠ [] := joinSlash_ne_nil _ hne' (fun s hs => (hmem s hs).1)
  have h3 : hasTrailingSlash (render abs rs.reverse) = false := by
    obtain ⟨ns, n, hn⟩ : ∃ ns n, rs.reverse = ns ++ [n] := by
      cases hr : rs.reverse using List.reverseRecOn with
      | nil => exact absurd hr hne'
      | append_singleton ns n => exact ⟨ns, n, rfl⟩
    have hnn := hmem n (by rw [hn]; simp)
    have hl : (joinSlash rs.reverse).getLast? = n.getLast? := by
      rw [hn]; exact joinSlash_getLast? ns n hnn.1
    have hlast : (joinSlash rs.reverse).getLast? ≠ some '/' := by
      rw [hl]
      intro e
      exact hnn.2 (List.mem_of_getLast?_eq_some e)
    have hr : (render abs rs.reverse).getLast? = (joinSlash rs.reverse).getLast? := by
      cases abs with
      | false => simp [render]
      | true =>
        simp only [render, if_true]
        cases hjj : joinSlash rs.reverse with
        | nil => exact absurd hjj hj
        | cons c cs => rw [List.getLast?_cons_cons]
    unfold hasTrailingSlash
    rw [hr]
    simpa using hlast
  have h4 : render abs rs.reverse ≠ [] := by
    cases abs <;> simp [render, hj]
  unfold normalize
  rw [if_neg h4]
  simp only [h1, h3, normSegs_eq, h2]
  rw [if_neg hj]
  cases abs <;> simp [render]

theorem OUTPUT_DIR_ne_nil (env : Env) : OUTPUT_DIR env ≠ [] := by
  rw [OUTPUT_DIR_render]
  have hj : joinSlash ((stackOf (!isAbsolute env.tmpdir) env.tmpdir).reverse ++ outputNames)
      ≠ [] := by
    apply joinSlash_ne_nil _ (by simp [outputNames])
    intro s hs
    simp only [List.mem_append, List.mem_reverse] at hs
    rcases hs with hs | hs
    · exact (normalStack_mem _ _ (normalStack_stackOf _ env.tmpdir) s hs).1
    · exact (outputNames_names s hs).1
  unfold render
  split
  · simp
  · exact hj

/-- The directory of a session whose identifier is a name, and the output
path of a discovered file in it: both are `OUTPUT_DIR` followed by names. -/
theorem session_output_path (env : Env) (folder t : Str) (dirs : List Str) (stem : Str)
    (hfolder : folder ≠ []) (ht : t = pdf ∨ t = webp) (hdirs : ∀ d ∈ dirs, isName d)
    (hstem : '/' ∉ stem) (hmatch : matchStarDotPng (stem ++ dotPng) = true)
    (hid : isName env.uuid) :
    sessionDir env = OUTPUT_DIR env ++ '/' :: env.uuid ∧
    outputFileOf env.cwd folder (sessionDir env) t
        (folder ++ '/' :: joinSlash (dirs ++ [stem ++ dotPng]))
      = sessionDir env ++ '/' :: joinSlash (dirs ++ [stem ++ '.' :: t]) := by
  have hnorm : NormalStack (!isAbsolute env.tmpdir)
      (outputNames.reverse ++ stackOf (!isAbsolute env.tmpdir) env.tmpdir) :=
    normalStack_names _ outputNames outputNames_names _ (normalStack_stackOf _ env.tmpdir)
  have hnorm2 : NormalStack (!isAbsolute env.tmpdir)
      (env.uuid :: (outputNames.reverse ++ stackOf (!isAbsolute env.tmpdir) env.tmpdir)) :=
    normalStack_push_name _ _ hnorm _ hid
  have hne : (stackOf (!isAbsolute env.tmpdir) env.tmpdir).reverse ++ outputNames ≠ [] := by
    simp [outputNames]
  have hdir : OUTPUT_DIR env = dirOf (isAbsolute env.tmpdir)
      (outputNames.reverse ++ stackOf (!isAbsolute env.tmpdir) env.tmpdir).reverse := by
    rw [OUTPUT_DIR_render, dirOf]
    simp only [List.reverse_append, List.reverse_reverse]
    rw [if_neg hne]
  have hsess : sessionDir env = render (isAbsolute env.tmpdir)
      (((stackOf (!isAbsolute env.tmpdir) env.tmpdir).reverse ++ outputNames)
        ++ [env.uuid]) := by
    unfold sessionDir
    rw [hdir, join_dirOf_name _ _ hnorm env.uuid hid]
    simp only [List.reverse_append, List.reverse_reverse]
  have hsess2 : sessionDir env = dirOf (isAbsolute env.tmpdir)
      (env.uuid :: (outputNames.reverse ++ stackOf (!isAbsolute env.tmpdir) env.tmpdir)).reverse
      := by
    rw [hsess, dirOf]
    simp only [List.reverse_cons, List.reverse_append, List.reverse_reverse]
    rw [if_neg (by simp)]
  have habs : isAbsolute (sessionDir env) = isAbsolute env.tmpdir := by
    rw [hsess2]
    exact isAbsolute_dirOf _ _
      (fun s hs => normalStack_mem _ _ hnorm2 s (List.mem_reverse.mp hs))
  have hstack : stackOf (!isAbsolute env.tmpdir) (sessionDir env)
      = env.uuid :: (outputNames.reverse ++ stackOf (!isAbsolute env.tmpdir) env.tmpdir) := by
    rw [hsess2]
    exact stackOf_dirOf _ _ hnorm2
  refine ⟨?_, ?_⟩
  · rw [hsess, render_append _ _ _ hne (by simp), OUTPUT_DIR_render]
    simp [joinSlash]
  · rw [outputFileOf_render env.cwd folder (sessionDir env) t dirs stem hfolder ht hdirs hstem
      hmatch, habs, hstack]
    simp only [List.reverse_cons, List.reverse_append, List.reverse_reverse]
    rw [render_append _ _ _ (by simp) (by simp), hsess]

theorem replacePngSuffix_joinSlash (dirs : List Str) (stem t : Str) :
    replacePngSuffix (joinSlash (dirs ++ [stem ++ dotPng])) t
      = joinSlash (dirs ++ [stem ++ '.' :: t]) := by
  have hform : ∀ last : Str, joinSlash (dirs ++ [last])
      = (if dirs = [] then [] else joinSlash dirs ++ ['/']) ++ last := by
    intro last
    by_cases hd : dirs = []
    · subst hd; simp [joinSlash]
    · rw [joinSlash_append_singleton dirs hd]; simp [hd]
  have hsuf : dotPng.isSuffixOf (joinSlash (dirs ++ [stem ++ dotPng])) = true := by
    rw [List.isSuffixOf_iff_suffix, hform, ← List.append_assoc]
    exact List.suffix_append _ dotPng
  unfold replacePngSuffix
  rw [if_pos hsuf, hform (stem ++ dotPng), hform (stem ++ '.' :: t)]
  have hlen : ((if dirs = [] then [] else joinSlash dirs ++ ['/']) ++ (stem ++ dotPng)).length
      - dotPng.length = ((if dirs = [] then [] else joinSlash dirs ++ ['/']) ++ stem).length := by
    simp only [List.length_append]
    omega
  rw [hlen, ← List.append_assoc, List.take_left']
  · simp
  · rfl

theorem normalStack_resolveSegs (cwd p : Str) : NormalStack false (resolveSegs cwd p).reverse := by
  unfold resolveSegs
  split
  · simp only [normSegs, List.reverse_reverse]
    exact normalStack_foldl false _ (not_mem_of_mem_splitSlash p) [] (normalStack_nil false)
  · simp only [normSegs, List.reverse_reverse]
    apply normalStack_foldl false _ _ [] (normalStack_nil false)
    intro s hs
    rcases List.mem_append.mp hs with hs | hs
    · exact not_mem_of_mem_splitSlash cwd s hs
    · exact not_mem_of_mem_splitSlash p s hs

/-- A character with a meaning of its own in a URL is not in a path written
from plain names. -/
theorem not_mem_joinSlash_plain (N : List Str) (hplain : ∀ s ∈ N, urlPlain s) (c : Char)
    (hc : c = '%' ∨ c = '?' ∨ c = '#' ∨ c = '\\' ∨ c = Char.ofNat 0) :
    c ∉ '/' :: joinSlash N := by
  intro hm
  have hslash : c ≠ '/' := by
    rcases hc with rfl | rfl | rfl | rfl | rfl <;> decide
  rcases List.mem_cons.mp hm with h | h
  · exact hslash h
  · rcases mem_joinSlash N c h with h | ⟨s, hs, hcs⟩
    · exact hslash h
    · obtain ⟨p1, p2, p3, p4, p5⟩ := hplain s hs
      rcases hc with rfl | rfl | rfl | rfl | rfl
      · exact p1 hcs
      · exact p2 hcs
      · exact p3 hcs
      · exact p4 hcs
      · exact p5 hcs

/-- What `send` looks up for a path written from plain names that are not
dot-files: the root followed by the names. -/
theorem sendPath_names (cwd p : Str) (N : List Str) (hne : N ≠ [])
    (hN : ∀ s ∈ N, isName s) (hplain : ∀ s ∈ N, urlPlain s)
    (hhid : ∀ s ∈ N, isHidden s = false) :
    sendPath (resolve cwd p) ('/' :: joinSlash N)
      = some ('/' :: joinSlash (resolveSegs cwd p ++ N)) := by
  have hbad := not_mem_joinSlash_plain N hplain
  have hdec : decodeURIComponent ('/' :: joinSlash N) = some ('/' :: joinSlash N) :=
    decodeURIComponent_plain _ (hbad '%' (Or.inl rfl))
  have hnul : ('/' :: joinSlash N).contains (Char.ofNat 0) = false := by
    have := hbad (Char.ofNat 0) (Or.inr (Or.inr (Or.inr (Or.inr rfl))))
    simpa using this
  have hsplit : splitSlash (joinSlash N) = N :=
    splitSlash_joinSlash N hne (fun s hs => (hN s hs).2.1)
  have hrel : normalize ('.' :: '/' :: '/' :: joinSlash N) = joinSlash N := by
    have h := normalize_joined ['.', '/'] N hne hN
    have ha : isAbsolute ['.', '/'] = false := by decide
    have hst : stackOf (!false) ['.', '/'] = [] := by decide
    rw [ha, hst] at h
    simpa [joined, render] using h
  have hback : (joinSlash N).map (fun c => if c = '\\' then '/' else c) = joinSlash N := by
    have hx : ∀ c ∈ joinSlash N, (fun c => if c = '\\' then '/' else c) c = id c := by
      intro c hc
      have hne' : c ≠ '\\' := by
        intro e
        exact hbad '\\' (Or.inr (Or.inr (Or.inr (Or.inl rfl))))
          (List.mem_cons_of_mem _ (e ▸ hc))
      simp [hne']
    rw [List.map_congr_left hx, List.map_id]
  have hup : hasUpSegment (joinSlash N) = false := by
    unfold hasUpSegment
    rw [hback, hsplit]
    have : dotdot ∉ N := fun hm => (hN dotdot hm).2.2.2 rfl
    simpa using this
  have hdot : containsDotFile (splitSlash (joinSlash N)) = false := by
    rw [hsplit]
    unfold containsDotFile
    rw [List.any_eq_false]
    intro x hx
    simp [hhid x hx]
  have hroot : resolve cwd p = dirOf true ((resolveSegs cwd p).reverse).reverse := by
    unfold resolve dirOf render
    by_cases hS : resolveSegs cwd p = []
    · simp [hS, joinSlash]
    · simp [hS]
  have hSN : NormalStack (!true) (N.reverse ++ (resolveSegs cwd p).reverse) :=
    normalStack_names _ N hN _ (normalStack_resolveSegs cwd p)
  have hfile : normalize (join [resolve cwd p, joinSlash N])
      = '/' :: joinSlash (resolveSegs cwd p ++ N) := by
    rw [join_pair_names _ N hne hN, hroot,
      isAbsolute_dirOf true _ (fun s hs =>
        normalStack_mem _ _ (normalStack_resolveSegs cwd p) s (by simpa using hs)),
      stackOf_dirOf true _ (normalStack_resolveSegs cwd p)]
    have := normalize_render true _ hSN (by simp [hne])
    simp only [List.reverse_append, List.reverse_reverse] at this ⊢
    rw [this]
    simp [render]
  have htrail : hasTrailingSlash ('/' :: joinSlash N) = false := by
    have h := hasTrailingSlash_joined [] N hne hN
    have hj : joinSlash N ≠ [] := joinSlash_ne_nil N hne (names_comp N hN)
    simp only [joined, if_true] at h
    unfold hasTrailingSlash at h ⊢
    cases hjj : joinSlash N with
    | nil => exact absurd hjj hj
    | cons c cs => rw [List.getLast?_cons_cons, ← hjj]; exact h
  unfold sendPath
  simp only [hdec, hnul, Bool.false_eq_true, if_false, List.cons_ne_nil, hrel, hup, hdot, hfile,
    htrail]

/-- What the mount `/downloads` looks up for `/downloads/` followed by plain
names that are not dot-files: `path.resolve(OUTPUT_DIR)` followed by the
names. -/
theorem downloadsMount_names (env : Env) (N : List Str) (hne : N ≠ [])
    (hN : ∀ s ∈ N, isName s) (hplain : ∀ s ∈ N, urlPlain s)
    (hhid : ∀ s ∈ N, isHidden s = false) :
    downloadsMount env ("/downloads".toList ++ '/' :: joinSlash N)
      = some ('/' :: joinSlash (resolveSegs env.cwd (OUTPUT_DIR env) ++ N)) := by
  have hbad := not_mem_joinSlash_plain N hplain
  have hpath : pathnameOf ("/downloads".toList ++ '/' :: joinSlash N)
      = "/downloads".toList ++ '/' :: joinSlash N := by
    apply pathnameOf_plain
    · intro hm
      rcases List.mem_append.mp hm with h | h
      · revert h; decide
      · exact hbad '?' (Or.inr (Or.inl rfl)) h
    · intro hm
      rcases List.mem_append.mp hm with h | h
      · revert h; decide
      · exact hbad '#' (Or.inr (Or.inr (Or.inl rfl))) h
  have htake : ("/downloads".toList ++ '/' :: joinSlash N).take "/downloads".toList.length
      = "/downloads".toList := List.take_left' rfl
  have hdrop : ("/downloads".toList ++ '/' :: joinSlash N).drop "/downloads".toList.length
      = '/' :: joinSlash N := List.drop_left' rfl
  have hlow : toLowerCase "/downloads".toList = "/downloads".toList := by decide
  unfold downloadsMount
  simp only [hpath, htake, hdrop, hlow, List.head?_cons, or_true, and_self, if_true]
  exact sendPath_names env.cwd (OUTPUT_DIR env) N hne hN hplain hhid

/-- The entries of the loop of `POST /convert-folder` when every directory is
created and no conversion throws: the entry of each file, in order. -/
theorem convertFolderFiles_entries (env : Env) (folder dir sid t : Str) (files : List Str)
    (hmk : ∀ g ∈ files, env.mkdir (outputSubdirOf env.cwd folder dir g) = .ok ())
    (hall : ∀ g ∈ files, fileThrows env folder dir t g = false) :
    (convertFolderFiles env folder dir sid t files).2
      = .ok (files.map (folderEntry env folder dir sid t)) := by
  induction files with
  | nil => rfl
  | cons g gs ih =>
    have hm := hmk g (by simp)
    obtain ⟨evs, hg⟩ := conversionThrows_false _ _ _ _ (hall g (by simp))
    have i1 := ih (fun x hx => hmk x (by simp [hx])) (fun x hx => hall x (by simp [hx]))
    simp only [convertFolderFiles, hm, hg, i1]
    rfl

/-- The response of `POST /convert-folder` when the request is valid, every
directory is created and no conversion throws: the `results` array holds the
entry of each discovered file, in order. -/
theorem postConvertFolder_results (env : Env) (folder t : Str) (recursive : JsVal)
    (files : List Str) (hfolder : folder ≠ []) (ht : t = pdf ∨ t = webp)
    (hstat : env.stat folder = some true) (hsession : env.mkdir (sessionDir env) = .ok ())
    (hglob : env.glob (folderPattern folder recursive) = .ok files) (hne : files ≠ [])
    (hmk : ∀ g ∈ files, env.mkdir (outputSubdirOf env.cwd folder (sessionDir env) g) = .ok ())
    (hall : ∀ g ∈ files, fileThrows env folder (sessionDir env) t g = false) :
    (postConvertFolder env (.str folder) (.str t) recursive).2
      = ⟨200, .results files.length
          (files.map (folderEntry env folder (sessionDir env) env.uuid t)) env.uuid⟩ := by
  have hv := type_valid t ht
  have hs : env.mkdir (join [OUTPUT_DIR env, env.uuid]) = .ok () := hsession
  have h1 := convertFolderFiles_entries env folder (sessionDir env) env.uuid t files hmk hall
  have hlen : ¬ files.length = 0 := fun e => hne (List.eq_nil_of_length_eq_zero e)
  have hc : ¬ (¬ (JsVal.str folder).truthy = true ∨ t = [] ∨ (t ≠ pdf ∧ t ≠ webp)) := by
    simp only [JsVal.truthy, not_or]
    exact ⟨by simp [hfolder], fun e => hv (Or.inl e), fun e => hv (Or.inr e)⟩
  unfold sessionDir at h1 ⊢
  simp only [postConvertFolder, if_neg hc, hstat, hs, hglob, if_neg hlen, h1]

theorem isName_plain_typed (stem t : Str) (ht : t = pdf ∨ t = webp) (hp : urlPlain stem) :
    urlPlain (stem ++ '.' :: t) := by
  obtain ⟨p1, p2, p3, p4, p5⟩ := hp
  have htp : urlPlain ('.' :: t) := by
    rcases ht with rfl | rfl <;> decide
  obtain ⟨q1, q2, q3, q4, q5⟩ := htp
  refine ⟨?_, ?_, ?_, ?_, ?_⟩ <;> intro hm <;> rcases List.mem_append.mp hm with h | h
  · exact p1 h
  · exact q1 h
  · exact p2 h
  · exact q2 h
  · exact p3 h
  · exact q3 h
  · exact p4 h
  · exact q4 h
  · exact p5 h
  · exact q5 h

theorem isHidden_typed (stem t : Str) (hmatch : matchStarDotPng (stem ++ dotPng) = true) :
    isHidden (stem ++ '.' :: t) = false := by
  have hne := stem_ne_nil stem hmatch
  cases stem with
  | nil => exact absurd rfl hne
  | cons c cs =>
    simp only [matchStarDotPng, isHidden, List.cons_append, List.head?_cons,
      Bool.and_eq_true, Bool.not_eq_true'] at hmatch ⊢
    exact hmatch.1

theorem joinSlash_cons (a : Str) (l : List Str) (hl : l ≠ []) :
    joinSlash (a :: l) = a ++ '/' :: joinSlash l := by
  cases l with
  | nil => exact absurd rfl hl
  | cons b l => rfl

/-- C12, amended: in `POST /convert-folder`, for a session identifier that is a
name and a discovered file `folderPath/dirs…/stem.png` (the directories are
names, the file name is matched by glob's `*.png`), the `downloadPath` of the
entry returned for the file is `/downloads/` + sessionId + `/` + p, where p is
exactly the path of the written output file relative to the session output
directory, that is `dirs…/stem.type`, and the written file is
`OUTPUT_DIR/sessionId/p`.  When moreover the identifier, the directories and
the stem contain none of `%`, `?`, `#`, `\` and the null character, and
neither the identifier nor a directory starts with a dot, the file the mount
`/downloads` looks up for that URL is the file that was written. -/
theorem convertFolder_download_path (env : Env) (folder t : Str) (dirs : List Str) (stem : Str)
    (hfolder : folder ≠ []) (ht : t = pdf ∨ t = webp) (hdirs : ∀ d ∈ dirs, isName d)
    (hstem : '/' ∉ stem) (hmatch : matchStarDotPng (stem ++ dotPng) = true)
    (hid : isName env.uuid) :
    (folderEntry env folder (sessionDir env) env.uuid t
        (folder ++ '/' :: joinSlash (dirs ++ [stem ++ dotPng]))).downloadPath
      = downloads ++ env.uuid ++ '/' :: relative env.cwd (sessionDir env)
          (outputFileOf env.cwd folder (sessionDir env) t
            (folder ++ '/' :: joinSlash (dirs ++ [stem ++ dotPng]))) ∧
    relative env.cwd (sessionDir env)
        (outputFileOf env.cwd folder (sessionDir env) t
          (folder ++ '/' :: joinSlash (dirs ++ [stem ++ dotPng])))
      = joinSlash (dirs ++ [stem ++ '.' :: t]) ∧
    outputFileOf env.cwd folder (sessionDir env) t
        (folder ++ '/' :: joinSlash (dirs ++ [stem ++ dotPng]))
      = OUTPUT_DIR env ++ '/' :: env.uuid ++ '/' :: joinSlash (dirs ++ [stem ++ '.' :: t]) ∧
    (urlPlain env.uuid → isHidden env.uuid = false → urlPlain stem →
      (∀ d ∈ dirs, urlPlain d ∧ isHidden d = false) →
      downloadsMount env
          (folderEntry env folder (sessionDir env) env.uuid t
            (folder ++ '/' :: joinSlash (dirs ++ [stem ++ dotPng]))).downloadPath
        = some (resolve env.cwd
            (outputFileOf env.cwd folder (sessionDir env) t
              (folder ++ '/' :: joinSlash (dirs ++ [stem ++ dotPng]))))) := by
  have hne := stem_ne_nil stem hmatch
  have hpng := names_of_file dirs _ hdirs (isName_png stem hstem hmatch)
  have htyped := isName_typed stem t hstem hne ht
  have hnames := names_of_file dirs _ hdirs htyped
  obtain ⟨hs1, hs2⟩ := session_output_path env folder t dirs stem hfolder ht hdirs hstem hmatch hid
  have hsne : sessionDir env ≠ [] := by rw [hs1]; simp
  have hrelf := relative_under env.cwd folder (dirs ++ [stem ++ dotPng]) hfolder (by simp) hpng
  have hrelw : relative env.cwd (sessionDir env)
      (outputFileOf env.cwd folder (sessionDir env) t
        (folder ++ '/' :: joinSlash (dirs ++ [stem ++ dotPng])))
      = joinSlash (dirs ++ [stem ++ '.' :: t]) := by
    rw [hs2]
    exact relative_under env.cwd (sessionDir env) _ hsne (by simp) hnames
  have hdl : (folderEntry env folder (sessionDir env) env.uuid t
      (folder ++ '/' :: joinSlash (dirs ++ [stem ++ dotPng]))).downloadPath
      = downloads ++ env.uuid ++ '/' :: joinSlash (dirs ++ [stem ++ '.' :: t]) := by
    simp only [folderEntry, hrelf, replacePngSuffix_joinSlash]
  have hwritten : outputFileOf env.cwd folder (sessionDir env) t
      (folder ++ '/' :: joinSlash (dirs ++ [stem ++ dotPng]))
      = OUTPUT_DIR env ++ '/' :: env.uuid ++ '/' :: joinSlash (dirs ++ [stem ++ '.' :: t]) := by
    rw [hs2, hs1]
  refine ⟨by rw [hdl, hrelw], hrelw, hwritten, ?_⟩
  intro hp1 hh1 hp2 hd
  have hN : ∀ s ∈ env.uuid :: (dirs ++ [stem ++ '.' :: t]), isName s := by
    intro s hs
    rcases List.mem_cons.mp hs with rfl | hs
    · exact hid
    · exact hnames s hs
  have hplain : ∀ s ∈ env.uuid :: (dirs ++ [stem ++ '.' :: t]), urlPlain s := by
    intro s hs
    rcases List.mem_cons.mp hs with rfl | hs
    · exact hp1
    · rcases List.mem_append.mp hs with hs | hs
      · exact (hd s hs).1
      · rw [List.mem_singleton.mp hs]
        exact isName_plain_typed stem t ht hp2
  have hhid : ∀ s ∈ env.uuid :: (dirs ++ [stem ++ '.' :: t]), isHidden s = false := by
    intro s hs
    rcases List.mem_cons.mp hs with rfl | hs
    · exact hh1
    · rcases List.mem_append.mp hs with hs | hs
      · exact (hd s hs).2
      · rw [List.mem_singleton.mp hs]
        exact isHidden_typed stem t hmatch
  have hj := joinSlash_cons env.uuid (dirs ++ [stem ++ '.' :: t]) (by simp)
  have hurl : downloads ++ env.uuid ++ '/' :: joinSlash (dirs ++ [stem ++ '.' :: t])
      = "/downloads".toList ++ '/' :: joinSlash (env.uuid :: (dirs ++ [stem ++ '.' :: t])) := by
    rw [hj]
    simp [downloads]
  have hw2 : OUTPUT_DIR env ++ '/' :: env.uuid ++ '/' :: joinSlash (dirs ++ [stem ++ '.' :: t])
      = OUTPUT_DIR env ++ '/' :: joinSlash (env.uuid :: (dirs ++ [stem ++ '.' :: t])) := by
    rw [hj]
    simp
  rw [hdl, hurl, downloadsMount_names env _ (by simp) hN hplain hhid, hwritten, hw2]
  unfold resolve
  rw [resolveSegs_under env.cwd (OUTPUT_DIR env) _ (OUTPUT_DIR_ne_nil env) (by simp) hN]

/-- C12 amended, on the file `in/sub/b.png` of the example directory. -/
theorem convertFolder_download_path_witness :
    (folderEntry treeEnv "in".toList (sessionDir treeEnv) "session".toList pdf
        "in/sub/b.png".toList).downloadPath = "/downloads/session/sub/b.pdf".toList ∧
    outputFileOf treeEnv.cwd "in".toList (sessionDir treeEnv) pdf "in/sub/b.png".toList
      = "/tmp/dark-spell-converter/output/session/sub/b.pdf".toList ∧
    downloadsMount treeEnv "/downloads/session/sub/b.pdf".toList
      = some "/tmp/dark-spell-converter/output/session/sub/b.pdf".toList :=
  have h := convertFolder_download_path treeEnv "in".toList pdf ["sub".toList] "b".toList
    (by decide) (Or.inl rfl) (by decide) (by decide) (by decide) (by decide)
  ⟨h.1, h.2.2.1, h.2.2.2 (by decide) (by decide) (by decide) (by decide)⟩

end Convertiseur
